import Mathlib

/-
Verification development for the bulkdraft/draftsend repository.

The Python sources are shallowly embedded as executable Lean definitions:

* dictionaries are association lists `List (String × _)` with first-match
  lookup (`dget`) and update-or-append assignment (`dset`), matching the
  unique-key discipline of Python dicts;
* strings are manipulated as `List Char` wherever character-level scanning
  matters (Python `str.split`, `re.sub`, `str.strip`);
* Python exceptions are modelled with `Except String`;
* side-effecting `print` warnings are modelled as explicitly returned
  lists of the printed strings;
* external collaborators (the pytz timezone database, the markdown
  converter, `hash`, `datetime.now`) are passed in as explicit parameters.

Recursions that must evaluate inside the kernel are written with an explicit
fuel argument (always instantiated with the length of the scanned list, which
is a strict upper bound on the number of steps).
-/

namespace BulkDraft

/-! ## Association-list dictionaries (model of Python `dict`) -/

/-- First-match lookup, the model of `d[k]` / `d.get(k)` on a Python dict
whose keys are unique. -/
def dget {α : Type} (d : List (String × α)) (k : String) : Option α :=
  match d with
  | [] => none
  | p :: rest => if p.1 = k then some p.2 else dget rest k

/-- Lookup with a default, the model of `d.get(k, default)`. -/
def pyGetD {α : Type} (d : List (String × α)) (k : String) (v : α) : α :=
  (dget d k).getD v

/-- Update-or-append assignment, the model of `d[k] = v` on a Python dict. -/
def dset {α : Type} (d : List (String × α)) (k : String) (v : α) :
    List (String × α) :=
  match d with
  | [] => [(k, v)]
  | p :: rest => if p.1 = k then (k, v) :: rest else p :: dset rest k v

theorem dget_dset {α : Type} (d : List (String × α)) (k k' : String) (v : α) :
    dget (dset d k v) k' = if k = k' then some v else dget d k' := by
  induction d with
  | nil =>
    by_cases h : k = k' <;> simp [dget, dset, h]
  | cons p rest ih =>
    rw [dset]
    by_cases hp : p.1 = k
    · rw [if_pos hp, dget]
      by_cases h : k = k'
      · rw [if_pos h, if_pos h]
      · rw [if_neg h, if_neg h, dget,
          if_neg (fun hq : p.1 = k' => h (hp.symm.trans hq))]
    · rw [if_neg hp, dget, dget]
      by_cases hq : p.1 = k'
      · rw [if_pos hq, if_pos hq,
          if_neg (fun hk : k = k' => hp (by rw [hq, hk]))]
      · rw [if_neg hq, if_neg hq, ih]

/-- Keys of an association list. -/
def dkeys {α : Type} (d : List (String × α)) : List String :=
  d.map Prod.fst

theorem dget_eq_none_of_not_mem_dkeys {α : Type} (d : List (String × α))
    (k : String) (h : k ∉ dkeys d) : dget d k = none := by
  induction d with
  | nil => rfl
  | cons p rest ih =>
    rw [dkeys, List.map_cons, List.mem_cons] at h
    push_neg at h
    rw [dget, if_neg (fun he => h.1 he.symm)]
    exact ih h.2

/-! ## Python string primitives -/

/-- ASCII whitespace characters stripped by Python `str.strip()` (the model
restricts Python unicode whitespace to its ASCII subset). -/
def isPySpace (c : Char) : Bool :=
  c = ' ' || c = '\t' || c = '\n' || c = '\r' || c = '\x0b' || c = '\x0c'

/-- Model of Python `str.strip()` on a character list. -/
def pyStrip (l : List Char) : List Char :=
  ((l.dropWhile isPySpace).reverse.dropWhile isPySpace).reverse

/-- Model of Python `str.lower()` (ASCII subset). -/
def pyLower (s : String) : String :=
  ⟨s.data.map Char.toLower⟩

/-- Model of Python `str.upper()` (ASCII subset). -/
def pyUpper (s : String) : String :=
  ⟨s.data.map Char.toUpper⟩

theorem mem_pyStrip {c : Char} {l : List Char} (h : c ∈ pyStrip l) : c ∈ l := by
  rw [pyStrip, List.mem_reverse] at h
  have h2 := (List.dropWhile_sublist _).subset h
  rw [List.mem_reverse] at h2
  exact (List.dropWhile_sublist _).subset h2

/-! ## `context.py`: `dedupe_records` (Deduplicator) -/

/-- A recipient record: a row of string fields, the model of the dicts
produced by `csv.DictReader`. -/
abbrev Record := List (String × String)

/-- Normalized email key: `record.get('email', '').lower().strip()`
(context.py line 56). -/
def normEmail (r : Record) : String :=
  ⟨pyStrip (pyLower (pyGetD r "email" "")).data⟩

/-- Boolean membership in a list of strings, the model of the
`seen_emails` set-membership test. -/
def elemStr (s : String) : List String → Bool
  | [] => false
  | x :: rest => decide (x = s) || elemStr s rest

theorem elemStr_iff {s : String} {l : List String} :
    elemStr s l = true ↔ s ∈ l := by
  induction l with
  | nil => simp [elemStr]
  | cons x rest ih =>
    rw [elemStr, Bool.or_eq_true, decide_eq_true_iff, ih, List.mem_cons]
    exact or_congr_left ⟨fun h => h.symm, fun h => h.symm⟩

/-- The per-duplicate notice printed by `dedupe_records` (context.py
line 61). -/
def dupNotice (r : Record) : String :=
  "Skipping duplicate email: " ++ normEmail r ++ " (name: " ++
    pyGetD r "first_name" "unknown" ++ ")"

/-- Accumulator loop of `dedupe_records` (context.py lines 53-61): returns
the retained records and the per-duplicate notice strings, threading the
`seen_emails` set. -/
def dedupeGo (seen : List String) : List Record → List Record × List String
  | [] => ([], [])
  | r :: rest =>
    if normEmail r ≠ "" ∧ elemStr (normEmail r) seen = false then
      (r :: (dedupeGo (normEmail r :: seen) rest).1,
        (dedupeGo (normEmail r :: seen) rest).2)
    else if normEmail r ≠ "" then
      ((dedupeGo seen rest).1, dupNotice r :: (dedupeGo seen rest).2)
    else
      dedupeGo seen rest

theorem dedupeGo_cons (seen : List String) (r : Record) (rest : List Record) :
    dedupeGo seen (r :: rest) =
      if normEmail r ≠ "" ∧ elemStr (normEmail r) seen = false then
        (r :: (dedupeGo (normEmail r :: seen) rest).1,
          (dedupeGo (normEmail r :: seen) rest).2)
      else if normEmail r ≠ "" then
        ((dedupeGo seen rest).1, dupNotice r :: (dedupeGo seen rest).2)
      else
        dedupeGo seen rest := rfl

/-- Result of `dedupe_records`: the deduplicated list, the per-duplicate
notices, and the numbers interpolated into the final summary line
`"Processing {retained} unique recipients (removed {removed} duplicates)"`
(context.py line 63). -/
structure DedupResult where
  deduped : List Record
  notices : List String
  summaryRetained : Nat
  summaryRemoved : Nat
  deriving Repr, DecidableEq

/-- Model of `dedupe_records` (context.py lines 43-64). -/
def dedupe_records (records : List Record) : DedupResult :=
  ⟨(dedupeGo [] records).1, (dedupeGo [] records).2,
    (dedupeGo [] records).1.length,
    records.length - (dedupeGo [] records).1.length⟩

/-- Declarative characterization, phrased from the claim: keep a record iff
its normalized email is non-empty and did not occur earlier in the list;
later records with the same normalized email are filtered away. Written
with explicit fuel (`records.length` suffices) so it evaluates in the
kernel. -/
def dedupeDeclF : Nat → List Record → List Record
  | _, [] => []
  | 0, _ :: _ => []
  | f + 1, r :: rest =>
    if normEmail r = "" then dedupeDeclF f rest
    else r :: dedupeDeclF f
      (rest.filter (fun x => !(decide (normEmail r = normEmail x))))

/-- Spec-side deduplication: first occurrence of each non-empty normalized
email, in order; empty-email records dropped. -/
def dedupeDecl (records : List Record) : List Record :=
  dedupeDeclF records.length records

theorem dedupeDeclF_irrel : ∀ f1 f2 (l : List Record), l.length ≤ f1 →
    l.length ≤ f2 → dedupeDeclF f1 l = dedupeDeclF f2 l := by
  intro f1
  induction f1 with
  | zero =>
    intro f2 l h1 _
    have hl : l = [] := List.length_eq_zero.1 (Nat.le_zero.1 h1)
    subst hl
    cases f2 <;> rfl
  | succ f ih =>
    intro f2 l h1 h2
    cases l with
    | nil => cases f2 <;> rfl
    | cons r rest =>
      cases f2 with
      | zero => exact absurd h2 (by simp)
      | succ f2' =>
        rw [dedupeDeclF, dedupeDeclF]
        by_cases he : normEmail r = ""
        · rw [if_pos he, if_pos he]
          exact ih f2' rest (Nat.le_of_succ_le_succ h1)
            (Nat.le_of_succ_le_succ h2)
        · rw [if_neg he, if_neg he]
          congr 1
          exact ih f2' _
            (le_trans (List.length_filter_le _ _) (Nat.le_of_succ_le_succ h1))
            (le_trans (List.length_filter_le _ _) (Nat.le_of_succ_le_succ h2))

theorem dedupeGo_fst_eq : ∀ f (seen : List String) (rs : List Record),
    rs.length ≤ f → (∀ s ∈ seen, s ≠ "") →
    (dedupeGo seen rs).1
      = dedupeDeclF f (rs.filter (fun x => !(elemStr (normEmail x) seen))) := by
  intro f
  induction f with
  | zero =>
    intro seen rs h1 _
    have hl : rs = [] := List.length_eq_zero.1 (Nat.le_zero.1 h1)
    subst hl
    rfl
  | succ f ih =>
    intro seen rs h1 hseen
    cases rs with
    | nil => rfl
    | cons r rest =>
      have hr : rest.length ≤ f := Nat.le_of_succ_le_succ h1
      by_cases he : normEmail r = ""
      · have hkeep : (fun x => !(elemStr (normEmail x) seen)) r = true := by
          show (!(elemStr (normEmail r) seen)) = true
          rw [he]
          cases hc : elemStr "" seen
          · rfl
          · exact absurd rfl (hseen "" (elemStr_iff.1 hc))
        have hfil : (r :: rest).filter (fun x => !(elemStr (normEmail x) seen))
            = r :: rest.filter (fun x => !(elemStr (normEmail x) seen)) :=
          List.filter_cons_of_pos hkeep
        rw [hfil, dedupeDeclF, if_pos he, dedupeGo_cons,
          if_neg (fun hc => hc.1 he), if_neg (fun hc => hc he)]
        exact ih seen rest hr hseen
      · by_cases hs : elemStr (normEmail r) seen = true
        · have hfil : (r :: rest).filter (fun x => !(elemStr (normEmail x) seen))
              = rest.filter (fun x => !(elemStr (normEmail x) seen)) := by
            apply List.filter_cons_of_neg
            show ¬ (!(elemStr (normEmail r) seen)) = true
            rw [hs]
            decide
          rw [hfil, dedupeGo_cons,
            if_neg (fun hc => absurd (hs.symm.trans hc.2) (by decide)),
            if_pos he]
          show (dedupeGo seen rest).1 = _
          rw [ih seen rest hr hseen]
          exact dedupeDeclF_irrel f (f + 1) _
            (le_trans (List.length_filter_le _ _) hr)
            (le_trans (List.length_filter_le _ _) (Nat.le_succ_of_le hr))
        · have hs' : elemStr (normEmail r) seen = false := by
            cases hc : elemStr (normEmail r) seen
            · rfl
            · exact absurd hc hs
          have hkeep : (fun x => !(elemStr (normEmail x) seen)) r = true := by
            show (!(elemStr (normEmail r) seen)) = true
            rw [hs']
            rfl
          have hfil : (r :: rest).filter (fun x => !(elemStr (normEmail x) seen))
              = r :: rest.filter (fun x => !(elemStr (normEmail x) seen)) :=
            List.filter_cons_of_pos hkeep
          rw [hfil, dedupeDeclF, if_neg he, dedupeGo_cons, if_pos ⟨he, hs'⟩]
          show r :: (dedupeGo (normEmail r :: seen) rest).1 = _
          congr 1
          rw [ih (normEmail r :: seen) rest hr
            (by intro s hmem
                cases hmem with
                | head => exact he
                | tail _ hmem2 => exact hseen s hmem2)]
          congr 1
          rw [List.filter_filter]
          apply List.filter_congr
          intro x _
          show (!(elemStr (normEmail x) (normEmail r :: seen)))
              = ((!(decide (normEmail r = normEmail x)))
                  && (!(elemStr (normEmail x) seen)))
          rw [elemStr, Bool.not_or]

theorem dedupeGo_count : ∀ (seen : List String) (rs : List Record),
    (dedupeGo seen rs).1.length + (dedupeGo seen rs).2.length
      + (rs.filter (fun r => decide (normEmail r = ""))).length = rs.length := by
  intro seen rs
  induction rs generalizing seen with
  | nil => rfl
  | cons r rest ih =>
    by_cases he : normEmail r = ""
    · have hfil : (r :: rest).filter (fun x => decide (normEmail x = ""))
          = r :: rest.filter (fun x => decide (normEmail x = "")) :=
        List.filter_cons_of_pos (by simp [he])
      rw [hfil, dedupeGo_cons, if_neg (fun hc => hc.1 he),
        if_neg (fun hc => hc he)]
      have := ih seen
      simp only [List.length_cons]
      omega
    · have hfil : (r :: rest).filter (fun x => decide (normEmail x = ""))
          = rest.filter (fun x => decide (normEmail x = "")) :=
        List.filter_cons_of_neg (by simp [he])
      by_cases hs : elemStr (normEmail r) seen = false
      · rw [hfil, dedupeGo_cons, if_pos ⟨he, hs⟩]
        have := ih (normEmail r :: seen)
        simp only [List.length_cons]
        omega
      · rw [hfil, dedupeGo_cons, if_neg (fun hc => hs hc.2), if_pos he]
        have := ih seen
        simp only [List.length_cons]
        omega

theorem dedupeGo_fst_nonempty : ∀ (seen : List String) (rs : List Record) r,
    r ∈ (dedupeGo seen rs).1 → normEmail r ≠ "" := by
  intro seen rs
  induction rs generalizing seen with
  | nil => intro r h; cases h
  | cons q rest ih =>
    intro r h
    by_cases he : normEmail q = ""
    · rw [dedupeGo_cons, if_neg (fun hc => hc.1 he),
        if_neg (fun hc => hc he)] at h
      exact ih seen r h
    · by_cases hs : elemStr (normEmail q) seen = false
      · rw [dedupeGo_cons, if_pos ⟨he, hs⟩] at h
        cases h with
        | head => exact he
        | tail _ h2 => exact ih (normEmail q :: seen) r h2
      · rw [dedupeGo_cons, if_neg (fun hc => hs hc.2), if_pos he] at h
        exact ih seen r h

theorem length_filter_not_add {α : Type} (p : α → Bool) (l : List α) :
    (l.filter p).length + (l.filter (fun x => !(p x))).length = l.length := by
  induction l with
  | nil => rfl
  | cons a rest ih =>
    cases ha : p a
    · have h1 : (a :: rest).filter p = rest.filter p :=
        List.filter_cons_of_neg (by rw [ha]; decide)
      have h2 : (a :: rest).filter (fun x => !(p x))
          = a :: rest.filter (fun x => !(p x)) :=
        List.filter_cons_of_pos (by show (!(p a)) = true; rw [ha]; rfl)
      rw [h1, h2]
      simp only [List.length_cons]
      omega
    · have h1 : (a :: rest).filter p = a :: rest.filter p :=
        List.filter_cons_of_pos (by rw [ha])
      have h2 : (a :: rest).filter (fun x => !(p x))
          = rest.filter (fun x => !(p x)) :=
        List.filter_cons_of_neg (by show ¬ (!(p a)) = true; rw [ha]; decide)
      rw [h1, h2]
      simp only [List.length_cons]
      omega

/-- C2: `dedupe_records` keeps exactly the records whose normalized email is
non-empty and unseen so far (first occurrence, in order); the retained,
duplicate-skipped and empty-dropped records partition the input; the
`A@X.com` / `" a@x.com "` pair keeps exactly the first record. -/
theorem claim_c2_dedupe_first_occurrence (records : List Record) :
    (dedupe_records records).deduped = dedupeDecl records
    ∧ (dedupe_records records).deduped.length
        + (dedupe_records records).notices.length
        + (records.filter (fun r => decide (normEmail r = ""))).length
        = records.length
    ∧ (dedupe_records [[("email", "A@X.com")], [("email", " a@x.com ")]]).deduped
        = [[("email", "A@X.com")]] := by
  refine ⟨?_, dedupeGo_count [] records, by decide⟩
  show (dedupeGo [] records).1 = dedupeDecl records
  rw [dedupeDecl,
    dedupeGo_fst_eq records.length [] records (le_refl _)
      (by intro s h; cases h)]
  congr 1
  exact List.filter_eq_self.2 (fun a _ => rfl)

/-- C3 counterexample: a record with no email field is dropped with no
per-duplicate notice, yet the summary's removed count (computed as
`len(input) - len(output)`, context.py line 63) does count it: the claim
says it is not included in the duplicates-removed count, but here that
count is 1, not 0. -/
theorem claim_c3_counterexample :
    (dedupe_records [[("name", "x")]]).deduped = []
    ∧ (dedupe_records [[("name", "x")]]).notices = []
    ∧ (dedupe_records [[("name", "x")]]).summaryRemoved = 1 := by
  decide

/-- C3 (amended): an empty-normalized-email record is dropped entirely —
never retained and never given a per-duplicate notice (notices plus retained
records exactly exhaust the non-empty-email records) — but the summary's
duplicates-removed count equals `len(input) - len(output)` and therefore
does include the dropped empty-email records. -/
theorem claim_c3_empty_email_drop (records : List Record) :
    (∀ r ∈ (dedupe_records records).deduped, normEmail r ≠ "")
    ∧ (dedupe_records records).deduped.length
        + (dedupe_records records).notices.length
        = (records.filter (fun r => !(decide (normEmail r = "")))).length
    ∧ (dedupe_records records).summaryRemoved
        = records.length - (dedupe_records records).deduped.length := by
  refine ⟨fun r h => dedupeGo_fst_nonempty [] records r h, ?_, rfl⟩
  show (dedupeGo [] records).1.length + (dedupeGo [] records).2.length
      = (records.filter (fun r => !(decide (normEmail r = "")))).length
  have h1 := dedupeGo_count [] records
  have h2 := length_filter_not_add (fun r => decide (normEmail r = "")) records
  omega

/-- Witness for C3 (amended), at a concrete two-record input with one real
email and one email-less record. -/
theorem claim_c3_empty_email_drop_witness :
    [("email", "a@x.com")]
        ∈ (dedupe_records [[("email", "a@x.com")], [("name", "x")]]).deduped
    ∧ normEmail [("email", "a@x.com")] ≠ "" :=
  ⟨by decide,
    (claim_c3_empty_email_drop [[("email", "a@x.com")], [("name", "x")]]).1
      [("email", "a@x.com")] (by decide)⟩

/-! ## Python `str.split(sep, maxsplit)` and `template.py`: `load_content` -/

/-- Split a character list at the first (leftmost, non-overlapping)
occurrence of `sep`, returning the part before it and the remainder after
it. `none` when `sep` does not occur. -/
def splitOnce (sep : List Char) : List Char → Option (List Char × List Char)
  | [] => none
  | c :: rest =>
    if sep.isPrefixOf (c :: rest) then some ([], (c :: rest).drop sep.length)
    else (splitOnce sep rest).map (fun p => (c :: p.1, p.2))

theorem splitOnce_eq_append {sep l a r : List Char}
    (h : splitOnce sep l = some (a, r)) : l = a ++ sep ++ r := by
  induction l generalizing a r with
  | nil => exact absurd h (by simp [splitOnce])
  | cons c rest ih =>
    rw [splitOnce] at h
    by_cases hp : sep.isPrefixOf (c :: rest)
    · rw [if_pos hp] at h
      obtain ⟨t, ht⟩ := List.isPrefixOf_iff_prefix.1 hp
      cases h
      rw [List.nil_append, ← ht, List.drop_left]
    · rw [if_neg hp] at h
      cases hs : splitOnce sep rest with
      | none => rw [hs] at h; simp at h
      | some p =>
        rw [hs] at h
        cases h
        rw [ih hs, List.cons_append, List.cons_append]

theorem splitOnce_length {sep l a r : List Char} (hsep : sep ≠ [])
    (h : splitOnce sep l = some (a, r)) : r.length < l.length := by
  have he := splitOnce_eq_append h
  have hpos : 0 < sep.length := List.length_pos.2 hsep
  rw [he, List.length_append, List.length_append]
  omega

/-- Second stage of `pySplit2`: split the remainder once more. -/
def pySplit2Tail (sep a r : List Char) : List (List Char) :=
  match splitOnce sep r with
  | none => [a, r]
  | some (b, r2) => [a, b, r2]

/-- Model of Python `content.split(sep, 2)`: at most two splits, so at most
three parts; any further separator occurrences stay inside the last part. -/
def pySplit2 (sep l : List Char) : List (List Char) :=
  match splitOnce sep l with
  | none => [l]
  | some (a, r) => pySplit2Tail sep a r

/-- Number of non-overlapping occurrences of `sep`, scanning left to right
(fuelled; fuel `l.length` suffices). -/
def countOccF (sep : List Char) : Nat → List Char → Nat
  | 0, _ => 0
  | f + 1, l =>
    match splitOnce sep l with
    | none => 0
    | some (_, r) => countOccF sep f r + 1

/-- Number of non-overlapping occurrences of `sep` in `l`. -/
def countOcc (sep l : List Char) : Nat :=
  countOccF sep l.length l

theorem countOccF_irrel (sep : List Char) (hsep : sep ≠ []) :
    ∀ f1 f2 l, l.length ≤ f1 → l.length ≤ f2 →
      countOccF sep f1 l = countOccF sep f2 l := by
  intro f1
  induction f1 with
  | zero =>
    intro f2 l h1 _
    have hl : l = [] := List.length_eq_zero.1 (Nat.le_zero.1 h1)
    subst hl
    cases f2 with
    | zero => rfl
    | succ g => rfl
  | succ f ih =>
    intro f2 l h1 h2
    cases l with
    | nil =>
      cases f2 with
      | zero => rfl
      | succ g => rfl
    | cons c rest =>
      cases f2 with
      | zero => exact absurd h2 (by simp)
      | succ g =>
        cases hs : splitOnce sep (c :: rest) with
        | none => rw [countOccF, countOccF, hs]
        | some p =>
          obtain ⟨a, r⟩ := p
          have hlen : r.length < (c :: rest).length :=
            splitOnce_length hsep hs
          rw [countOccF, countOccF, hs]
          show countOccF sep f r + 1 = countOccF sep g r + 1
          rw [ih g r (by simp only [List.length_cons] at hlen h1; omega)
            (by simp only [List.length_cons] at hlen h2; omega)]

theorem countOcc_unfold (sep : List Char) (hsep : sep ≠ []) (l : List Char) :
    countOcc sep l = match splitOnce sep l with
      | none => 0
      | some (_, r) => countOcc sep r + 1 := by
  cases l with
  | nil => rfl
  | cons c rest =>
    cases hs : splitOnce sep (c :: rest) with
    | none => rw [countOcc, List.length_cons, countOccF, hs]
    | some p =>
      obtain ⟨a, r⟩ := p
      have hlen : r.length < (c :: rest).length := splitOnce_length hsep hs
      rw [countOcc, List.length_cons, countOccF, hs]
      show countOccF sep rest.length r + 1 = countOcc sep r + 1
      rw [countOccF_irrel sep hsep rest.length r.length r
        (by simp only [List.length_cons] at hlen; omega) (le_refl _)]
      rfl

/-- The front-matter delimiter `'---'`. -/
def delim : List Char := ['-', '-', '-']

/-- Model of `load_content` (template.py lines 19-26): split the file
content on the triple-dash delimiter with maxsplit 2 and unpack into
exactly three parts; fewer parts is Python's unpacking `ValueError`. The
YAML parsing of the middle part is an external concern, so the raw YAML
text and the body text are returned. -/
def load_content (content : String) : Except String (String × String) :=
  match pySplit2 delim content.data with
  | [_, y, m] => .ok (⟨y⟩, ⟨m⟩)
  | _ => .error "ValueError: not enough values to unpack (expected 3)"

/-- C6 counterexample: the claim says any delimiter count other than two is
a parse error, but a content with three `'---'` occurrences parses
successfully (the third occurrence stays in the body), because the split
uses maxsplit 2. -/
theorem claim_c6_counterexample :
    countOcc delim ("---a---b---c").data = 3
    ∧ load_content "---a---b---c" = .ok ("a", "b---c") :=
  ⟨rfl, rfl⟩

/-- C6 (amended): `load_content` succeeds iff the delimiter occurs at least
twice; with fewer than two occurrences the unpacking error is raised (before
any recipient is processed), and any occurrences beyond the second remain in
the body text. -/
theorem claim_c6_delimiter_count (s : String) :
    (∃ y m, load_content s = .ok (y, m)) ↔ 2 ≤ countOcc delim s.data := by
  have hsep : delim ≠ [] := by decide
  cases h1 : splitOnce delim s.data with
  | none =>
    have hc : countOcc delim s.data = 0 := by
      rw [countOcc_unfold delim hsep s.data, h1]
    have hl : load_content s
        = .error "ValueError: not enough values to unpack (expected 3)" := by
      rw [load_content, pySplit2, h1]
    rw [hl, hc]
    constructor
    · rintro ⟨y, m, hym⟩
      cases hym
    · intro h
      exact absurd h (by omega)
  | some p =>
    obtain ⟨a, r⟩ := p
    cases h2 : splitOnce delim r with
    | none =>
      have hc : countOcc delim s.data = 1 := by
        rw [countOcc_unfold delim hsep s.data, h1]
        show countOcc delim r + 1 = 1
        rw [countOcc_unfold delim hsep r, h2]
      have hsplit : pySplit2 delim s.data = [a, r] := by
        rw [pySplit2, h1]
        show pySplit2Tail delim a r = [a, r]
        rw [pySplit2Tail, h2]
      have hl : load_content s
          = .error "ValueError: not enough values to unpack (expected 3)" := by
        rw [load_content, hsplit]
      rw [hl, hc]
      constructor
      · rintro ⟨y, m, hym⟩
        cases hym
      · intro h
        exact absurd h (by omega)
    | some q =>
      obtain ⟨b, r2⟩ := q
      have hc : 2 ≤ countOcc delim s.data := by
        rw [countOcc_unfold delim hsep s.data, h1]
        show 2 ≤ countOcc delim r + 1
        rw [countOcc_unfold delim hsep r, h2]
        show 2 ≤ countOcc delim r2 + 1 + 1
        omega
      have hsplit : pySplit2 delim s.data = [a, b, r2] := by
        rw [pySplit2, h1]
        show pySplit2Tail delim a r = [a, b, r2]
        rw [pySplit2Tail, h2]
      have hl : load_content s = .ok (⟨b⟩, ⟨r2⟩) := by
        rw [load_content, hsplit]
      rw [hl]
      exact ⟨fun _ => hc, fun _ => ⟨⟨b⟩, ⟨r2⟩, rfl⟩⟩

/-- Witness for C6 (amended) at a concrete well-formed template source. -/
theorem claim_c6_delimiter_count_witness :
    (∃ y m, load_content "---x---y" = .ok (y, m))
    ∧ 2 ≤ countOcc delim ("---x---y").data :=
  ⟨(claim_c6_delimiter_count "---x---y").2 (by decide), by decide⟩

/-! ## `template.py`: the rendering primitive and the two metadata passes

The templating engine is external; the model reproduces the documented
subset actually exercised by the templates: literal text with
`{ {`-style interpolations of a variable, optionally filtered through
`default` with a single-quoted literal, where an undefined variable renders
as the empty string. Malformed interpolations are the engine's syntax
errors, modelled with `Except.error`. -/

/-- A YAML metadata value: a string, or a non-string scalar. -/
inductive Val where
  | vstr (s : String)
  | vint (n : Int)
  | vbool (b : Bool)
  | vnone
  deriving Repr, DecidableEq

/-- The unresolved-template-marker heuristic used throughout the code:
`value.startswith('\x7b\x7b') and value.endswith('\x7d\x7d')`. -/
def looksUnrendered (s : String) : Bool :=
  ['\x7b', '\x7b'].isPrefixOf s.data && ['\x7d', '\x7d'].isSuffixOf s.data

/-- One metadata item added to the render context (template.py lines
49-52): only string values that do not look like unresolved template
markers are added; non-strings are skipped. -/
def mdStep (d : List (String × String)) (kv : String × Val) :
    List (String × String) :=
  match kv.2 with
  | .vstr s => if looksUnrendered s then d else dset d kv.1 s
  | _ => d

/-- One recipient-context item added to the render context (template.py
line 56): added unconditionally, overriding any metadata value. -/
def ctxStep (d : List (String × String)) (p : String × String) :
    List (String × String) :=
  dset d p.1 p.2

/-- The render-context construction of `render_template` (template.py lines
46-56): metadata string values that do not look like unresolved template
markers, overridden by the recipient context (highest priority). -/
def buildRenderContext (metadata : List (String × Val))
    (ctx : List (String × String)) : List (String × String) :=
  ctx.foldl ctxStep (metadata.foldl mdStep [])

/-- A template expression of the modelled engine subset: a variable, or a
variable with a `default` filter carrying a quoted literal. -/
inductive TExpr where
  | var (name : String)
  | varDefault (name : String) (dflt : String)
  deriving Repr, DecidableEq

/-- First character of an identifier. -/
def isIdentStart (c : Char) : Bool :=
  c.isAlpha || c = '_'

/-- Subsequent character of an identifier. -/
def isIdentChar (c : Char) : Bool :=
  c.isAlphanum || c = '_'

/-- Drop leading whitespace. -/
def skipWs (l : List Char) : List Char :=
  l.dropWhile isPySpace

/-- Leading identifier of a character list, with the remainder. -/
def takeIdent (l : List Char) : Option (String × List Char) :=
  match l with
  | [] => none
  | c :: rest =>
    if isIdentStart c then
      some (⟨c :: rest.takeWhile isIdentChar⟩, rest.dropWhile isIdentChar)
    else none

/-- Drop an expected literal prefix. -/
def dropLit (lit l : List Char) : Option (List Char) :=
  if lit.isPrefixOf l then some (l.drop lit.length) else none

/-- Parser for the expression inside an interpolation: `ident`, or
`ident | default('literal')`. Anything else is a syntax error of the
engine. -/
def parseExpr (l : List Char) : Option TExpr :=
  match takeIdent (skipWs l) with
  | none => none
  | some (name, r) =>
    match skipWs r with
    | [] => some (.var name)
    | '|' :: r2 =>
      match dropLit ("default(".data ++ ['\x27']) (skipWs r2) with
      | none => none
      | some r4 =>
        match splitOnce ['\x27'] r4 with
        | none => none
        | some (lit, r6) =>
          match r6 with
          | ')' :: r7 =>
            if skipWs r7 = [] then some (.varDefault name ⟨lit⟩) else none
          | _ => none
    | _ => none

/-- Evaluate an expression against bindings; an undefined variable renders
as the empty string (the engine's default undefined), unless a `default`
literal is supplied. -/
def evalExpr (b : String → Option String) : TExpr → List Char
  | .var n => ((b n).getD "").data
  | .varDefault n d => ((b n).getD d).data

/-- The closing marker of an interpolation. -/
def exprEnd : List Char := ['\x7d', '\x7d']

/-- Fuelled scanner of the modelled engine subset: literal text with
interpolations. An unterminated or malformed interpolation is a syntax
error; evaluation itself never fails. Fuel `l.length` suffices. -/
def renderStrF (b : String → Option String) :
    Nat → List Char → Except String (List Char)
  | _, [] => .ok []
  | 0, l => .ok l
  | f + 1, c :: rest =>
    if c = '\x7b' then
      match rest with
      | '\x7b' :: rest2 =>
        match splitOnce exprEnd rest2 with
        | none => .error "unexpected end of template"
        | some (inner, rest3) =>
          match parseExpr inner with
          | none => .error "expected a variable expression"
          | some e =>
            match renderStrF b f rest3 with
            | .ok t => .ok (evalExpr b e ++ t)
            | .error msg => .error msg
      | _ =>
        match renderStrF b f rest with
        | .ok t => .ok (c :: t)
        | .error msg => .error msg
    else
      match renderStrF b f rest with
      | .ok t => .ok (c :: t)
      | .error msg => .error msg

/-- Run the scanner with sufficient fuel. -/
def renderStr (b : String → Option String) (s : String) : Except String String :=
  match renderStrF b s.data.length s.data with
  | .ok l => .ok ⟨l⟩
  | .error e => .error e

/-- Model of `render_template` (template.py lines 29-60): build the render
context from the metadata and the recipient context, then interpolate. -/
def render_template (tpl : String) (metadata : List (String × Val))
    (ctx : List (String × String)) : Except String String :=
  renderStr (fun k => dget (buildRenderContext metadata ctx) k) tpl

/-- The value stored for a rendered field: the rendered string on success,
the raw string unchanged on failure (template.py lines 81, 85, 93, 97). -/
def renderOrRaw (tpl : String) (metadata : List (String × Val))
    (ctx : List (String × String)) : String :=
  match render_template tpl metadata ctx with
  | .ok r => r
  | .error _ => tpl

/-- A render-failure warning as printed by `render_metadata_templates`
(template.py lines 84 and 96): field name and error text only. -/
def renderWarning (k e : String) : String :=
  "Warning: Failed to render " ++ k ++ ": " ++ e

/-- One entry of the first metadata pass (template.py lines 77-87): a
string field other than `subject` is rendered against the recipient record
only (the metadata argument is the empty dict); on failure the raw string
is stored and a warning is emitted; a non-string value passes through; a
string-valued `subject` is left for the second pass. -/
def pass1Entry (record : List (String × String)) (k : String) (v : Val)
    (acc : List (String × Val) × List String) :
    List (String × Val) × List String :=
  match v with
  | .vstr s =>
    if k = "subject" then acc
    else
      match render_template s [] record with
      | .ok r => (dset acc.1 k (.vstr r), acc.2)
      | .error e => (dset acc.1 k (.vstr s), acc.2 ++ [renderWarning k e])
  | _ => (dset acc.1 k v, acc.2)

/-- First pass of `render_metadata_templates` over all metadata fields. -/
def pass1 (metadata : List (String × Val)) (record : List (String × String)) :
    List (String × Val) × List String :=
  metadata.foldl (fun acc kv => pass1Entry record kv.1 kv.2 acc) ([], [])

/-- Second pass of `render_metadata_templates` (template.py lines 90-97):
if the metadata has a string-valued `subject`, render it against the
first-pass resolved metadata merged with the recipient record, falling back
to the raw subject with a warning on failure. -/
def subjectPass (record : List (String × String))
    (d1 : List (String × Val)) (ws : List String) (sop : Option Val) :
    List (String × Val) × List String :=
  match sop with
  | some (.vstr s) =>
    match render_template s d1 record with
    | .ok r => (dset d1 "subject" (.vstr r), ws)
    | .error e => (dset d1 "subject" (.vstr s), ws ++ [renderWarning "subject" e])
  | _ => (d1, ws)

/-- Model of `render_metadata_templates` (template.py lines 63-99): first
pass over every field except `subject`, then, if a string-valued `subject`
exists, render it strictly last against the first-pass resolved metadata
merged with the recipient record. -/
def render_metadata_templates (metadata : List (String × Val))
    (record : List (String × String)) :
    List (String × Val) × List String :=
  subjectPass record (pass1 metadata record).1 (pass1 metadata record).2
    (dget metadata "subject")

/-! ## Lookup lemmas for the render-context and metadata folds -/

/-- Last binding of a key in a raw context list: the value that repeated
dict assignment leaves behind. -/
def lastVal (k : String) : List (String × String) → Option String
  | [] => none
  | p :: rest =>
    match lastVal k rest with
    | some v => some v
    | none => if p.1 = k then some p.2 else none

theorem ctx_foldl_dget : ∀ (ctx : List (String × String))
    (d : List (String × String)) (k : String),
    dget (ctx.foldl ctxStep d) k
      = match lastVal k ctx with
        | some v => some v
        | none => dget d k := by
  intro ctx
  induction ctx with
  | nil => intro d k; rfl
  | cons p rest ih =>
    intro d k
    rw [List.foldl_cons]
    show dget (List.foldl ctxStep (dset d p.1 p.2) rest) k = _
    rw [ih (dset d p.1 p.2) k, lastVal]
    cases hl : lastVal k rest with
    | some v => rfl
    | none =>
      show dget (dset d p.1 p.2) k
          = match (if p.1 = k then some p.2 else none : Option String) with
            | some v => some v
            | none => dget d k
      rw [dget_dset]
      by_cases hp : p.1 = k
      · rw [if_pos hp, if_pos hp]
      · rw [if_neg hp, if_neg hp]

theorem lastVal_isSome {k : String} {v : String}
    {ctx : List (String × String)} (h : (k, v) ∈ ctx) :
    ∃ w, lastVal k ctx = some w := by
  induction ctx with
  | nil => cases h
  | cons p rest ih =>
    rw [lastVal]
    cases h with
    | head =>
      cases hl : lastVal k rest with
      | some w => exact ⟨w, rfl⟩
      | none => exact ⟨v, by rw [if_pos rfl]⟩
    | tail _ h2 =>
      obtain ⟨w, hw⟩ := ih h2
      rw [hw]
      exact ⟨w, rfl⟩

theorem mdStep_dget_ne (d : List (String × String)) (kv : String × Val)
    (k : String) (hne : kv.1 ≠ k) : dget (mdStep d kv) k = dget d k := by
  obtain ⟨k', v⟩ := kv
  have hne' : k' ≠ k := hne
  cases v with
  | vstr s =>
    show dget (if looksUnrendered s = true then d else dset d k' s) k
        = dget d k
    by_cases hm : looksUnrendered s = true
    · rw [if_pos hm]
    · rw [if_neg hm, dget_dset, if_neg hne']
  | vint n => rfl
  | vbool b => rfl
  | vnone => rfl

theorem mdfold_dget_not_mem : ∀ (md : List (String × Val))
    (acc : List (String × String)) (k : String), k ∉ dkeys md →
    dget (md.foldl mdStep acc) k = dget acc k := by
  intro md
  induction md with
  | nil => intro acc k _; rfl
  | cons kv rest ih =>
    intro acc k hk
    rw [dkeys, List.map_cons, List.mem_cons] at hk
    push_neg at hk
    rw [List.foldl_cons, ih (mdStep acc kv) k hk.2,
      mdStep_dget_ne acc kv k (fun h => hk.1 h.symm)]

theorem mdfold_marker_none : ∀ (md : List (String × Val))
    (acc : List (String × String)) (k : String) (s : String),
    (dkeys md).Nodup → (k, Val.vstr s) ∈ md → looksUnrendered s = true →
    dget (md.foldl mdStep acc) k = dget acc k := by
  intro md
  induction md with
  | nil => intro acc k s _ hmem; cases hmem
  | cons kv rest ih =>
    intro acc k s hnd hmem hmark
    rw [dkeys, List.map_cons] at hnd
    have hnd2 := List.nodup_cons.1 hnd
    rw [List.foldl_cons]
    cases hmem with
    | head =>
      rw [mdfold_dget_not_mem rest (mdStep acc (k, Val.vstr s)) k hnd2.1]
      show dget (if looksUnrendered s = true then acc else dset acc k s) k
          = dget acc k
      rw [if_pos hmark]
    | tail _ hmem2 =>
      have hk : k ∈ dkeys rest := by
        rw [dkeys, List.mem_map]
        exact ⟨(k, Val.vstr s), hmem2, rfl⟩
      have hne : kv.1 ≠ k := fun h => hnd2.1 (h ▸ hk)
      rw [ih (mdStep acc kv) k s hnd2.2 hmem2 hmark,
        mdStep_dget_ne acc kv k hne]

theorem dget_of_mem_nodup {α : Type} : ∀ {d : List (String × α)} {k : String}
    {v : α}, (dkeys d).Nodup → (k, v) ∈ d → dget d k = some v := by
  intro d
  induction d with
  | nil => intro k v _ hmem; cases hmem
  | cons p rest ih =>
    intro k v hnd hmem
    rw [dkeys, List.map_cons] at hnd
    have hnd2 := List.nodup_cons.1 hnd
    cases hmem with
    | head => rw [dget, if_pos rfl]
    | tail _ hmem2 =>
      have hk : k ∈ dkeys rest := by
        rw [dkeys, List.mem_map]
        exact ⟨(k, v), hmem2, rfl⟩
      have hne2 : ¬ p.1 = k := fun h => hnd2.1 (by rw [h]; exact hk)
      rw [dget, if_neg hne2]
      exact ih hnd2.2 hmem2

theorem pass1Entry_fst_dget_ne (record : List (String × String))
    (k' : String) (v : Val) (acc : List (String × Val) × List String)
    (k : String) (hne : k' ≠ k) :
    dget (pass1Entry record k' v acc).1 k = dget acc.1 k := by
  cases v with
  | vstr s =>
    rw [pass1Entry]
    by_cases hsub : k' = "subject"
    · rw [if_pos hsub]
    · rw [if_neg hsub]
      cases hr : render_template s [] record with
      | ok r =>
        show dget (dset acc.1 k' (.vstr r)) k = dget acc.1 k
        rw [dget_dset, if_neg hne]
      | error e =>
        show dget (dset acc.1 k' (.vstr s)) k = dget acc.1 k
        rw [dget_dset, if_neg hne]
  | vint n =>
    show dget (dset acc.1 k' (.vint n)) k = dget acc.1 k
    rw [dget_dset, if_neg hne]
  | vbool b =>
    show dget (dset acc.1 k' (.vbool b)) k = dget acc.1 k
    rw [dget_dset, if_neg hne]
  | vnone =>
    show dget (dset acc.1 k' .vnone) k = dget acc.1 k
    rw [dget_dset, if_neg hne]

theorem pass1_foldl_not_mem (record : List (String × String)) :
    ∀ (md : List (String × Val)) (acc : List (String × Val) × List String)
      (k : String), k ∉ dkeys md →
      dget (md.foldl (fun acc kv => pass1Entry record kv.1 kv.2 acc) acc).1 k
        = dget acc.1 k := by
  intro md
  induction md with
  | nil => intro acc k _; rfl
  | cons kv rest ih =>
    intro acc k hk
    rw [dkeys, List.map_cons, List.mem_cons] at hk
    push_neg at hk
    rw [List.foldl_cons, ih _ k hk.2,
      pass1Entry_fst_dget_ne record kv.1 kv.2 acc k (fun h => hk.1 h.symm)]

theorem pass1_foldl_warnings (record : List (String × String)) :
    ∀ (md : List (String × Val)) (acc : List (String × Val) × List String),
    ∃ tail, (md.foldl (fun acc kv => pass1Entry record kv.1 kv.2 acc) acc).2
      = acc.2 ++ tail := by
  intro md
  induction md with
  | nil => intro acc; exact ⟨[], (List.append_nil _).symm⟩
  | cons kv rest ih =>
    intro acc
    rw [List.foldl_cons]
    have hstep : ∃ w, (pass1Entry record kv.1 kv.2 acc).2 = acc.2 ++ w := by
      obtain ⟨k', v⟩ := kv
      cases v with
      | vstr s =>
        rw [pass1Entry]
        by_cases hsub : k' = "subject"
        · rw [if_pos hsub]
          exact ⟨[], (List.append_nil _).symm⟩
        · rw [if_neg hsub]
          cases hr : render_template s [] record with
          | ok r => exact ⟨[], (List.append_nil _).symm⟩
          | error e => exact ⟨[renderWarning k' e], rfl⟩
      | vint n => exact ⟨[], (List.append_nil _).symm⟩
      | vbool b => exact ⟨[], (List.append_nil _).symm⟩
      | vnone => exact ⟨[], (List.append_nil _).symm⟩
    obtain ⟨w, hw⟩ := hstep
    obtain ⟨tail, htail⟩ := ih (pass1Entry record kv.1 kv.2 acc)
    exact ⟨w ++ tail, by rw [htail, hw, List.append_assoc]⟩

theorem pass1_foldl_warning_mem (record : List (String × String)) :
    ∀ (md : List (String × Val)) (acc : List (String × Val) × List String)
      (k v e), (k, Val.vstr v) ∈ md → k ≠ "subject" →
      render_template v [] record = .error e →
      renderWarning k e
        ∈ (md.foldl (fun acc kv => pass1Entry record kv.1 kv.2 acc) acc).2 := by
  intro md
  induction md with
  | nil => intro acc k v e hmem _ _; cases hmem
  | cons kv rest ih =>
    intro acc k v e hmem hsub hr
    rw [List.foldl_cons]
    cases hmem with
    | head =>
      obtain ⟨tail, htail⟩ :=
        pass1_foldl_warnings record rest (pass1Entry record k (Val.vstr v) acc)
      rw [htail]
      apply List.mem_append_left
      rw [pass1Entry, if_neg hsub, hr]
      show renderWarning k e ∈ acc.2 ++ [renderWarning k e]
      exact List.mem_append_right _ (List.mem_singleton.2 rfl)
    | tail _ hmem2 =>
      exact ih (pass1Entry record kv.1 kv.2 acc) k v e hmem2 hsub hr

theorem pass1_lookup (record : List (String × String)) :
    ∀ (md : List (String × Val)) (acc : List (String × Val) × List String)
      (k : String) (v : Val), (dkeys md).Nodup → (k, v) ∈ md →
      dget (md.foldl (fun acc kv => pass1Entry record kv.1 kv.2 acc) acc).1 k
        = match v with
          | .vstr s => if k = "subject" then dget acc.1 k
              else some (.vstr (renderOrRaw s [] record))
          | _ => some v := by
  intro md
  induction md with
  | nil => intro acc k v _ hmem; cases hmem
  | cons kv rest ih =>
    intro acc k v hnd hmem
    rw [dkeys, List.map_cons] at hnd
    have hnd2 := List.nodup_cons.1 hnd
    rw [List.foldl_cons]
    cases hmem with
    | head =>
      rw [pass1_foldl_not_mem record rest _ k hnd2.1]
      cases v with
      | vstr s =>
        show dget (pass1Entry record k (Val.vstr s) acc).1 k
            = if k = "subject" then dget acc.1 k
              else some (.vstr (renderOrRaw s [] record))
        rw [pass1Entry]
        by_cases hsub : k = "subject"
        · rw [if_pos hsub, if_pos hsub]
        · rw [if_neg hsub, if_neg hsub]
          cases hr : render_template s [] record with
          | ok r =>
            show dget (dset acc.1 k (.vstr r)) k
                = some (.vstr (renderOrRaw s [] record))
            rw [dget_dset, if_pos rfl, renderOrRaw, hr]
          | error e =>
            show dget (dset acc.1 k (.vstr s)) k
                = some (.vstr (renderOrRaw s [] record))
            rw [dget_dset, if_pos rfl, renderOrRaw, hr]
      | vint n =>
        show dget (dset acc.1 k (.vint n)) k = some (.vint n)
        rw [dget_dset, if_pos rfl]
      | vbool b =>
        show dget (dset acc.1 k (.vbool b)) k = some (.vbool b)
        rw [dget_dset, if_pos rfl]
      | vnone =>
        show dget (dset acc.1 k .vnone) k = some .vnone
        rw [dget_dset, if_pos rfl]
    | tail _ hmem2 =>
      have hk : k ∈ dkeys rest := by
        rw [dkeys, List.mem_map]
        exact ⟨(k, v), hmem2, rfl⟩
      have hne : ¬ kv.1 = k := fun h => hnd2.1 (by rw [h]; exact hk)
      rw [ih (pass1Entry record kv.1 kv.2 acc) k v hnd2.2 hmem2]
      cases v with
      | vstr s =>
        show (if k = "subject" then dget (pass1Entry record kv.1 kv.2 acc).1 k
              else some (.vstr (renderOrRaw s [] record)))
            = if k = "subject" then dget acc.1 k
              else some (.vstr (renderOrRaw s [] record))
        by_cases hsub : k = "subject"
        · rw [if_pos hsub, if_pos hsub,
            pass1Entry_fst_dget_ne record kv.1 kv.2 acc k hne]
        · rw [if_neg hsub, if_neg hsub]
      | vint n => rfl
      | vbool b => rfl
      | vnone => rfl

theorem pass1_fst_lookup (record : List (String × String))
    (md : List (String × Val)) (k v) (hnd : (dkeys md).Nodup)
    (hks : k ≠ "subject") (hmem : (k, Val.vstr v) ∈ md) :
    dget (pass1 md record).1 k = some (.vstr (renderOrRaw v [] record)) := by
  show dget
      (md.foldl (fun acc kv => pass1Entry record kv.1 kv.2 acc) ([], [])).1 k
      = _
  rw [pass1_lookup record md ([], []) k (Val.vstr v) hnd hmem]
  show (if k = "subject"
      then dget (([], []) : List (String × Val) × List String).1 k
      else some (.vstr (renderOrRaw v [] record))) = _
  rw [if_neg hks]

theorem subjectPass_ok {record : List (String × String)}
    {d1 : List (String × Val)} {ws : List String} {s r : String}
    (h : render_template s d1 record = .ok r) :
    subjectPass record d1 ws (some (.vstr s))
      = (dset d1 "subject" (.vstr r), ws) := by
  rw [subjectPass, h]

theorem subjectPass_error {record : List (String × String)}
    {d1 : List (String × Val)} {ws : List String} {s e : String}
    (h : render_template s d1 record = .error e) :
    subjectPass record d1 ws (some (.vstr s))
      = (dset d1 "subject" (.vstr s), ws ++ [renderWarning "subject" e]) := by
  rw [subjectPass, h]

/-- C1: `render_metadata_templates` resolves every string-valued field
except `subject` in a first pass whose bindings come from the recipient
record only (the metadata argument of the shared primitive is the empty
dict), and resolves a string-valued `subject` strictly last, against the
first-pass resolved metadata merged with the record; in particular the
`event_name`/`subject` example with an empty recipient record resolves the
subject to `"Re: Gala"`. -/
theorem claim_c1_two_phase_resolution (md : List (String × Val))
    (record : List (String × String)) (hnd : (dkeys md).Nodup) :
    (∀ k v, k ≠ "subject" → (k, Val.vstr v) ∈ md →
        dget (render_metadata_templates md record).1 k
          = some (.vstr (renderOrRaw v [] record)))
    ∧ (∀ s, ("subject", Val.vstr s) ∈ md →
        dget (render_metadata_templates md record).1 "subject"
          = some (.vstr (renderOrRaw s (pass1 md record).1 record)))
    ∧ dget (render_metadata_templates
          [("event_name",
            Val.vstr "\x7b\x7b event_name | default(\x27Gala\x27) \x7d\x7d"),
           ("subject", Val.vstr "Re: \x7b\x7b event_name \x7d\x7d")] []).1
        "subject" = some (.vstr "Re: Gala") := by
  refine ⟨?_, ?_, by rfl⟩
  · intro k v hks hmem
    have hp := pass1_fst_lookup record md k v hnd hks hmem
    rw [render_metadata_templates]
    cases hsubj : dget md "subject" with
    | none => exact hp
    | some w =>
      cases w with
      | vstr s0 =>
        cases hr2 : render_template s0 (pass1 md record).1 record with
        | ok r =>
          rw [subjectPass_ok hr2]
          show dget (dset (pass1 md record).1 "subject" (.vstr r)) k = _
          rw [dget_dset, if_neg (fun h : "subject" = k => hks h.symm), hp]
        | error e =>
          rw [subjectPass_error hr2]
          show dget (dset (pass1 md record).1 "subject" (.vstr s0)) k = _
          rw [dget_dset, if_neg (fun h : "subject" = k => hks h.symm), hp]
      | vint n => exact hp
      | vbool b => exact hp
      | vnone => exact hp
  · intro s hmem
    have hsubj : dget md "subject" = some (Val.vstr s) :=
      dget_of_mem_nodup hnd hmem
    rw [render_metadata_templates, hsubj]
    cases hr2 : render_template s (pass1 md record).1 record with
    | ok r =>
      rw [subjectPass_ok hr2]
      show dget (dset (pass1 md record).1 "subject" (.vstr r)) "subject"
          = some (.vstr (renderOrRaw s (pass1 md record).1 record))
      rw [dget_dset, if_pos rfl, renderOrRaw, hr2]
    | error e =>
      rw [subjectPass_error hr2]
      show dget (dset (pass1 md record).1 "subject" (.vstr s)) "subject"
          = some (.vstr (renderOrRaw s (pass1 md record).1 record))
      rw [dget_dset, if_pos rfl, renderOrRaw, hr2]

/-- Witness for C1 at the spec's example metadata: the guarded statement
applied to the concrete metadata block with an empty recipient record. -/
theorem claim_c1_two_phase_resolution_witness :
    (dkeys [("event_name",
        Val.vstr "\x7b\x7b event_name | default(\x27Gala\x27) \x7d\x7d"),
      ("subject", Val.vstr "Re: \x7b\x7b event_name \x7d\x7d")]).Nodup
    ∧ dget (render_metadata_templates
        [("event_name",
          Val.vstr "\x7b\x7b event_name | default(\x27Gala\x27) \x7d\x7d"),
         ("subject", Val.vstr "Re: \x7b\x7b event_name \x7d\x7d")] []).1
      "subject" = some (.vstr "Re: Gala") :=
  ⟨by decide,
    (claim_c1_two_phase_resolution
      [("event_name",
        Val.vstr "\x7b\x7b event_name | default(\x27Gala\x27) \x7d\x7d"),
       ("subject", Val.vstr "Re: \x7b\x7b event_name \x7d\x7d")] []
      (by decide)).2.2⟩

/-- Substring (contiguous) containment test on character lists. -/
def containsSub (needle : List Char) : List Char → Bool
  | [] => needle.isPrefixOf []
  | c :: rest => needle.isPrefixOf (c :: rest) || containsSub needle rest

/-- C4 counterexample: for a field whose rendering fails, the warning
printed by the code is `"Warning: Failed to render {key}: {error}"`
(template.py line 84) — it contains the field name and the error, but not
the raw value, contrary to the claim. -/
theorem claim_c4_counterexample :
    (render_metadata_templates [("greeting", Val.vstr "\x7b\x7b oops")] []).2
      = [renderWarning "greeting" "unexpected end of template"]
    ∧ containsSub ("\x7b\x7b oops").data
        (renderWarning "greeting" "unexpected end of template").data
      = false :=
  ⟨rfl, rfl⟩

/-- C4 (amended): every rendering failure in metadata resolution is
non-fatal — the total model returns normally, the failing field keeps its
original raw string, and a warning containing the field name and the error
(but not the raw value) is surfaced — in both the first pass and the
subject pass. -/
theorem claim_c4_render_failure_fallback (md : List (String × Val))
    (record : List (String × String)) (hnd : (dkeys md).Nodup) :
    (∀ k v e, k ≠ "subject" → (k, Val.vstr v) ∈ md →
        render_template v [] record = .error e →
        dget (render_metadata_templates md record).1 k = some (.vstr v)
        ∧ renderWarning k e ∈ (render_metadata_templates md record).2)
    ∧ (∀ s e, ("subject", Val.vstr s) ∈ md →
        render_template s (pass1 md record).1 record = .error e →
        dget (render_metadata_templates md record).1 "subject"
          = some (.vstr s)
        ∧ renderWarning "subject" e
          ∈ (render_metadata_templates md record).2) := by
  constructor
  · intro k v e hks hmem hr
    constructor
    · have hp := pass1_fst_lookup record md k v hnd hks hmem
      rw [renderOrRaw, hr] at hp
      rw [render_metadata_templates]
      cases hsubj : dget md "subject" with
      | none => exact hp
      | some w =>
        cases w with
        | vstr s0 =>
          cases hr2 : render_template s0 (pass1 md record).1 record with
          | ok r =>
            rw [subjectPass_ok hr2]
            show dget (dset (pass1 md record).1 "subject" (.vstr r)) k = _
            rw [dget_dset, if_neg (fun h : "subject" = k => hks h.symm), hp]
          | error e2 =>
            rw [subjectPass_error hr2]
            show dget (dset (pass1 md record).1 "subject" (.vstr s0)) k = _
            rw [dget_dset, if_neg (fun h : "subject" = k => hks h.symm), hp]
        | vint n => exact hp
        | vbool b => exact hp
        | vnone => exact hp
    · have hw : renderWarning k e ∈ (pass1 md record).2 :=
        pass1_foldl_warning_mem record md ([], []) k v e hmem hks hr
      rw [render_metadata_templates]
      cases hsubj : dget md "subject" with
      | none => exact hw
      | some w =>
        cases w with
        | vstr s0 =>
          cases hr2 : render_template s0 (pass1 md record).1 record with
          | ok r =>
            rw [subjectPass_ok hr2]
            exact hw
          | error e2 =>
            rw [subjectPass_error hr2]
            show renderWarning k e
                ∈ (pass1 md record).2 ++ [renderWarning "subject" e2]
            exact List.mem_append_left _ hw
        | vint n => exact hw
        | vbool b => exact hw
        | vnone => exact hw
  · intro s e hmem hr
    have hsubj : dget md "subject" = some (Val.vstr s) :=
      dget_of_mem_nodup hnd hmem
    rw [render_metadata_templates, hsubj]
    cases hr2 : render_template s (pass1 md record).1 record with
    | ok r => rw [hr2] at hr; cases hr
    | error e2 =>
      rw [hr2] at hr
      cases hr
      rw [subjectPass_error hr2]
      constructor
      · show dget (dset (pass1 md record).1 "subject" (.vstr s)) "subject"
            = some (.vstr s)
        rw [dget_dset, if_pos rfl]
      · show renderWarning "subject" e
            ∈ (pass1 md record).2 ++ [renderWarning "subject" e]
        exact List.mem_append_right _ (List.mem_singleton.2 rfl)

/-- Witness for C4 (amended): the unterminated-interpolation metadata field
`greeting`, applied to the first conjunct. -/
theorem claim_c4_render_failure_fallback_witness :
    dget (render_metadata_templates
        [("greeting", Val.vstr "\x7b\x7b oops")] []).1 "greeting"
      = some (.vstr "\x7b\x7b oops")
    ∧ renderWarning "greeting" "unexpected end of template"
      ∈ (render_metadata_templates [("greeting", Val.vstr "\x7b\x7b oops")] []).2 :=
  (claim_c4_render_failure_fallback
      [("greeting", Val.vstr "\x7b\x7b oops")] [] (by decide)).1
    "greeting" "\x7b\x7b oops" "unexpected end of template"
    (by decide) (by decide) (by rfl)

/-- C9: in the shared rendering primitive's binding construction, a
metadata string value that looks like an unresolved template marker is
never added — the binding of its key is exactly whatever the recipient
context provides — and a key occurring in the recipient context is always
bound to the context's value, overriding any same-named metadata field. -/
theorem claim_c9_binding_rules (md : List (String × Val))
    (ctx : List (String × String)) (hnd : (dkeys md).Nodup) :
    (∀ k s, (k, Val.vstr s) ∈ md → looksUnrendered s = true →
        dget (buildRenderContext md ctx) k = lastVal k ctx)
    ∧ (∀ k v, (k, v) ∈ ctx →
        dget (buildRenderContext md ctx) k = lastVal k ctx) := by
  constructor
  · intro k s hmem hmark
    rw [buildRenderContext, ctx_foldl_dget]
    cases hl : lastVal k ctx with
    | some v => rfl
    | none =>
      show dget (md.foldl mdStep []) k = none
      rw [mdfold_marker_none md [] k s hnd hmem hmark]
      rfl
  · intro k v hmem
    obtain ⟨w, hw⟩ := lastVal_isSome hmem
    rw [buildRenderContext, ctx_foldl_dget, hw]

/-- Witness for C9: a marker-valued metadata field next to a recipient
context that overrides another metadata field, at concrete inputs. -/
theorem claim_c9_binding_rules_witness :
    dget (buildRenderContext
        [("x", Val.vstr "\x7b\x7b a \x7d\x7d"), ("y", Val.vstr "meta")]
        [("y", "ctx")]) "x"
      = lastVal "x" [("y", "ctx")]
    ∧ dget (buildRenderContext
        [("x", Val.vstr "\x7b\x7b a \x7d\x7d"), ("y", Val.vstr "meta")]
        [("y", "ctx")]) "y"
      = lastVal "y" [("y", "ctx")] :=
  ⟨(claim_c9_binding_rules
      [("x", Val.vstr "\x7b\x7b a \x7d\x7d"), ("y", Val.vstr "meta")]
      [("y", "ctx")] (by decide)).1 "x" "\x7b\x7b a \x7d\x7d"
      (by decide) (by decide),
    (claim_c9_binding_rules
      [("x", Val.vstr "\x7b\x7b a \x7d\x7d"), ("y", Val.vstr "meta")]
      [("y", "ctx")] (by decide)).2 "y" "ctx" (by decide)⟩

/-! ## `calendar.py`: `create_ics_file`

The pytz timezone database is external; it is passed in as a `known`
predicate on timezone identifiers. `datetime.now()` is external; the
current wall-clock time is passed in as `now`. -/

/-- A parsed naive datetime (the result of `datetime.strptime` with format
`%Y-%m-%d %H:%M:%S`). -/
structure NaiveDT where
  year : Nat
  month : Nat
  day : Nat
  hour : Nat
  minute : Nat
  second : Nat
  deriving Repr, DecidableEq

/-- Numeric value of a decimal digit. -/
def digitVal (c : Char) : Option Nat :=
  if c.isDigit then some (c.toNat - 48) else none

/-- Two-digit decimal field. -/
def parse2 (a b : Char) : Option Nat :=
  match digitVal a, digitVal b with
  | some x, some y => some (x * 10 + y)
  | _, _ => none

/-- Four-digit decimal field. -/
def parse4 (a b c d : Char) : Option Nat :=
  match digitVal a, digitVal b, digitVal c, digitVal d with
  | some w, some x, some y, some z => some (((w * 10 + x) * 10 + y) * 10 + z)
  | _, _, _, _ => none

/-- Model of `datetime.strptime(s, '%Y-%m-%d %H:%M:%S')`: fixed 19-character
shape with basic range validation (month-length subtleties of the external
library are not modelled; no claim depends on them). -/
def parseDateTime (s : String) : Option NaiveDT :=
  match s.data with
  | [y1, y2, y3, y4, '-', m1, m2, '-', d1, d2, ' ',
     h1, h2, ':', n1, n2, ':', s1, s2] =>
    match parse4 y1 y2 y3 y4, parse2 m1 m2, parse2 d1 d2,
        parse2 h1 h2, parse2 n1 n2, parse2 s1 s2 with
    | some y, some mo, some da, some ho, some mi, some se =>
      if 1 ≤ mo ∧ mo ≤ 12 ∧ 1 ≤ da ∧ da ≤ 31 ∧ ho ≤ 23 ∧ mi ≤ 59 ∧ se ≤ 59
      then some ⟨y, mo, da, ho, mi, se⟩ else none
    | _, _, _, _, _, _ => none
  | _ => none

/-- The unrendered-marker guard on the timezone string (calendar.py lines
29-31): fall back to `'UTC'` with a warning. -/
def tzGuard (tzRaw : String) : String × List String :=
  if looksUnrendered tzRaw
  then ("UTC", ["Warning: Timezone not properly rendered: " ++ tzRaw])
  else (tzRaw, [])

/-- Timezone resolution (calendar.py lines 29-37): the marker guard, then
the database lookup with UTC fallback and a warning on an unknown
identifier. -/
def resolveTz (known : String → Bool) (tzRaw : String) : String × List String :=
  if known (tzGuard tzRaw).1 then tzGuard tzRaw
  else ("UTC", (tzGuard tzRaw).2 ++
    ["Warning: Unknown timezone \x27" ++ (tzGuard tzRaw).1
      ++ "\x27, falling back to UTC"])

/-- Date parsing with fallback (calendar.py lines 39-43): an unparsable
date string falls back to the current time with a warning. -/
def parseDateOr (now : NaiveDT) (dateRaw : String) : NaiveDT × List String :=
  match parseDateTime dateRaw with
  | some d => (d, [])
  | none =>
    (now, ["Warning: Invalid date format \x27" ++ dateRaw
      ++ "\x27, using current time"])

/-- The single calendar event built per recipient: name, timezone-attached
start, location. -/
structure IcsEvent where
  eventName : Val
  tzUsed : String
  beginsAt : NaiveDT
  location : Val
  deriving Repr, DecidableEq

/-- Core event construction from the extracted fields. -/
def icsCore (known : String → Bool) (now : NaiveDT) (name loc : Val)
    (tzRaw dateRaw : String) : IcsEvent × List String :=
  (⟨name, (resolveTz known tzRaw).1, (parseDateOr now dateRaw).1, loc⟩,
    (resolveTz known tzRaw).2 ++ (parseDateOr now dateRaw).2)

/-- Model of `create_ics_file` (calendar.py lines 10-50): extract the
fields with their defaults and build the event plus the emitted warnings.
A non-string `timezone` raises (`.startswith` on a non-string); a
non-string `event_date` raises (`strptime` on a non-string); both escape
the function as in the Python code, which catches neither. -/
def create_ics_file (known : String → Bool) (now : NaiveDT)
    (metadata : List (String × Val)) : Except String (IcsEvent × List String) :=
  match pyGetD metadata "timezone" (.vstr "UTC"),
      pyGetD metadata "event_date" (.vstr "2023-12-01 10:00:00") with
  | .vstr tzRaw, .vstr dateRaw =>
    .ok (icsCore known now (pyGetD metadata "event_name" (.vstr "Event"))
      (pyGetD metadata "event_location" (.vstr "TBD")) tzRaw dateRaw)
  | .vstr _, _ => .error "TypeError: strptime argument must be str"
  | _, _ => .error "AttributeError: startswith requires str"

theorem resolveTz_marker (known : String → Bool) (tzRaw : String)
    (hm : looksUnrendered tzRaw = true) :
    (resolveTz known tzRaw).1 = "UTC" ∧ (resolveTz known tzRaw).2 ≠ [] := by
  have hg : tzGuard tzRaw
      = ("UTC", ["Warning: Timezone not properly rendered: " ++ tzRaw]) := by
    rw [tzGuard, if_pos hm]
  rw [resolveTz, hg]
  by_cases hk : known "UTC" = true
  · rw [if_pos hk]
    exact ⟨rfl, by simp⟩
  · rw [if_neg hk]
    exact ⟨rfl, by simp⟩

theorem resolveTz_unknown (known : String → Bool) (tzRaw : String)
    (hm : looksUnrendered tzRaw = false) (hk : known tzRaw = false) :
    (resolveTz known tzRaw).1 = "UTC" ∧ (resolveTz known tzRaw).2 ≠ [] := by
  have hg : tzGuard tzRaw = (tzRaw, []) := by
    rw [tzGuard, if_neg (by rw [hm]; exact fun h => Bool.noConfusion h)]
  rw [resolveTz, hg]
  rw [if_neg (show ¬ known tzRaw = true from by rw [hk]; exact fun h => Bool.noConfusion h)]
  exact ⟨rfl, by simp⟩

/-- A concrete sample of the external timezone database, for witnesses:
contains the identifiers the tests use, and not `"Nowhere/Place"`. -/
def pytzKnownSample (s : String) : Bool :=
  s == "UTC" || s == "US/Eastern" || s == "Europe/London"

/-- C5: `create_ics_file` never raises on a bad timezone — whenever the
`timezone` value is a string and the `event_date` value is a string (or
defaulted), it returns normally; if the timezone string looks like an
unrendered template marker or is unknown to the timezone database, the
event carries the UTC timezone and a warning is emitted. The
`{timezone: "{ { timezone } }"}` metadata resolved against an empty
recipient record also ends in the UTC fallback with a warning. -/
theorem claim_c5_timezone_fallback (known : String → Bool) (now : NaiveDT)
    (md : List (String × Val)) (tzRaw : String)
    (htz : pyGetD md "timezone" (.vstr "UTC") = .vstr tzRaw)
    (hdate : ∃ ds, pyGetD md "event_date" (.vstr "2023-12-01 10:00:00")
      = .vstr ds)
    (hbad : looksUnrendered tzRaw = true ∨ known tzRaw = false) :
    (∃ ev ws, create_ics_file known now md = .ok (ev, ws)
      ∧ ev.tzUsed = "UTC" ∧ ws ≠ [])
    ∧ (∃ ev ws, create_ics_file pytzKnownSample now
        (render_metadata_templates
          [("timezone", Val.vstr "\x7b\x7b timezone \x7d\x7d")] []).1
        = .ok (ev, ws) ∧ ev.tzUsed = "UTC" ∧ ws ≠ []) := by
  constructor
  · obtain ⟨ds, hds⟩ := hdate
    have hres : (resolveTz known tzRaw).1 = "UTC"
        ∧ (resolveTz known tzRaw).2 ≠ [] := by
      cases hmk : looksUnrendered tzRaw with
      | true => exact resolveTz_marker known tzRaw hmk
      | false =>
        have hk : known tzRaw = false := by
          cases hbad with
          | inl h => rw [hmk] at h; cases h
          | inr h => exact h
        exact resolveTz_unknown known tzRaw hmk hk
    refine ⟨(icsCore known now (pyGetD md "event_name" (.vstr "Event"))
        (pyGetD md "event_location" (.vstr "TBD")) tzRaw ds).1,
      (icsCore known now (pyGetD md "event_name" (.vstr "Event"))
        (pyGetD md "event_location" (.vstr "TBD")) tzRaw ds).2, ?_, ?_, ?_⟩
    · rw [create_ics_file, htz, hds]
    · show (resolveTz known tzRaw).1 = "UTC"
      exact hres.1
    · show (resolveTz known tzRaw).2 ++ (parseDateOr now ds).2 ≠ []
      intro hcon
      exact hres.2 (List.append_eq_nil.1 hcon).1
  · refine ⟨(icsCore pytzKnownSample now (Val.vstr "Event")
        (Val.vstr "TBD") "" "2023-12-01 10:00:00").1,
      (icsCore pytzKnownSample now (Val.vstr "Event")
        (Val.vstr "TBD") "" "2023-12-01 10:00:00").2, ?_, by rfl,
      by intro h; exact List.noConfusion h⟩
    rfl

/-- Witness for C5 at the spec's `"Nowhere/Place"` identifier against the
sample timezone database. -/
theorem claim_c5_timezone_fallback_witness :
    ∃ ev ws, create_ics_file pytzKnownSample ⟨2023, 12, 1, 10, 0, 0⟩
        [("timezone", Val.vstr "Nowhere/Place")] = .ok (ev, ws)
      ∧ ev.tzUsed = "UTC" ∧ ws ≠ [] :=
  (claim_c5_timezone_fallback pytzKnownSample ⟨2023, 12, 1, 10, 0, 0⟩
    [("timezone", Val.vstr "Nowhere/Place")] "Nowhere/Place"
    (by decide) ⟨"2023-12-01 10:00:00", by decide⟩ (Or.inr (by decide))).1

/-! ## `email_builder.py`: `html_to_plain_text` (Rich-Text-to-Plain-Text
Reducer)

Each `re.sub` call of the source is modelled by the generic left-to-right
scanner `subF` with a matcher for the concrete pattern. A matcher receives
the head character and the rest of the input and returns how many further
characters (beyond the head) the match consumes; the scanner replaces the
match and resumes after it, or copies one character and advances, exactly
like `re.sub`. -/

/-- A pattern matcher at a position: given the head character and the rest,
`some n` means the match consumes the head plus `n` characters of the
rest. -/
def Matcher : Type :=
  Char → List Char → Option Nat

/-- Generic left-to-right replace-all scanner (fuelled; fuel `l.length`
suffices). -/
def subF (m : Matcher) (repl : List Char) : Nat → List Char → List Char
  | _, [] => []
  | 0, l => l
  | fuel + 1, c :: rest =>
    match m c rest with
    | some n => repl ++ subF m repl fuel (rest.drop n)
    | none => c :: subF m repl fuel rest

/-- Replace all matches of `m` by `repl`, the model of one `re.sub`. -/
def subAll (m : Matcher) (repl : List Char) (l : List Char) : List Char :=
  subF m repl l.length l

/-- Index of the first `'>'`. -/
def findGt : List Char → Option Nat
  | [] => none
  | c :: rest => if c = '>' then some 0 else (findGt rest).map (· + 1)

/-- Matcher for `<LIT[^>]*>` with a literal `LIT` (used for `br`, `p`,
`li`): the literal after `<`, then everything up to the first `'>'`. -/
def mOpenLit (lit : List Char) (c : Char) (rest : List Char) : Option Nat :=
  if c = '<' ∧ lit.isPrefixOf rest then
    (findGt (rest.drop lit.length)).map (fun i => lit.length + i + 1)
  else none

/-- Matcher for a literal closing tag such as `</p>`: the characters after
`<` must match `lit` exactly (the literal ends in `'>'`). -/
def mCloseLit (lit : List Char) (c : Char) (rest : List Char) : Option Nat :=
  if c = '<' ∧ lit.isPrefixOf rest then some lit.length else none

/-- Matcher for `<h[1-6][^>]*>`. -/
def mHOpen (c : Char) (rest : List Char) : Option Nat :=
  if c = '<' then
    match rest with
    | a :: d :: r =>
      if a = 'h' ∧ '1' ≤ d ∧ d ≤ '6' then (findGt r).map (fun i => 2 + i + 1)
      else none
    | _ => none
  else none

/-- Matcher for `</h[1-6]>`. -/
def mHClose (c : Char) (rest : List Char) : Option Nat :=
  if c = '<' then
    match rest with
    | a :: b :: d :: e :: _ =>
      if a = '/' ∧ b = 'h' ∧ '1' ≤ d ∧ d ≤ '6' ∧ e = '>' then some 4
      else none
    | _ => none
  else none

/-- Matcher for `<[^>]+>`: at least one non-`'>'` character, then the first
`'>'`. -/
def mTag (c : Char) (rest : List Char) : Option Nat :=
  if c = '<' then
    match rest with
    | [] => none
    | x :: r => if x = '>' then none else (findGt r).map (fun i => i + 2)
  else none

/-- Position of the last `'\n'` inside the maximal whitespace prefix: the
backtracking behaviour of greedy `\n\s*\n`. -/
def lastNlInWsRun : List Char → Option Nat
  | [] => none
  | c :: rest =>
    if isPySpace c then
      match lastNlInWsRun rest with
      | some i => some (i + 1)
      | none => if c = '\n' then some 0 else none
    else none

/-- Matcher for `\n\s*\n`. -/
def mCollapse (c : Char) (rest : List Char) : Option Nat :=
  if c = '\n' then (lastNlInWsRun rest).map (· + 1) else none

/-- Model of `html_to_plain_text` (email_builder.py lines 52-71) on
character lists: the eight `re.sub` passes in source order followed by
`strip()`. -/
def html_to_plain_text_chars (l : List Char) : List Char :=
  pyStrip
    (subAll mCollapse ['\n', '\n']
      (subAll mTag []
        (subAll (mOpenLit ['l', 'i']) ['\n', '•', ' ']
          (subAll mHClose ['\n']
            (subAll mHOpen ['\n']
              (subAll (mCloseLit ['/', 'p', '>']) ['\n']
                (subAll (mOpenLit ['p']) ['\n']
                  (subAll (mOpenLit ['b', 'r']) ['\n'] l))))))))

/-- Model of `html_to_plain_text` on strings. -/
def html_to_plain_text (s : String) : String :=
  ⟨html_to_plain_text_chars s.data⟩

/-- No angle brackets anywhere in the list. -/
abbrev NoBrk (l : List Char) : Prop :=
  ∀ a ∈ l, a ≠ '<' ∧ a ≠ '>'

/-- Well-tagged markup: a sequence of non-bracket characters and complete
tags `'<' ++ body ++ '>'` whose body is non-empty and bracket-free. The
amendment of the no-angle-brackets claim is conditional on this shape. -/
inductive Balanced : List Char → Prop where
  | nil : Balanced []
  | plain (c : Char) (l : List Char) :
      c ≠ '<' → c ≠ '>' → Balanced l → Balanced (c :: l)
  | tag (m : List Char) (l : List Char) :
      m ≠ [] → (∀ a ∈ m, a ≠ '<' ∧ a ≠ '>') →
      Balanced l → Balanced ('<' :: m ++ '>' :: l)

theorem subF_irrel (m : Matcher) (repl : List Char) :
    ∀ f1 f2 l, l.length ≤ f1 → l.length ≤ f2 →
      subF m repl f1 l = subF m repl f2 l := by
  intro f1
  induction f1 with
  | zero =>
    intro f2 l h1 _
    have hl : l = [] := List.length_eq_zero.1 (Nat.le_zero.1 h1)
    subst hl
    cases f2 <;> rfl
  | succ f ih =>
    intro f2 l h1 h2
    cases l with
    | nil => cases f2 <;> rfl
    | cons c rest =>
      cases f2 with
      | zero => exact absurd h2 (by simp)
      | succ g =>
        have hr1 : rest.length ≤ f := by
          simp only [List.length_cons] at h1
          omega
        have hr2 : rest.length ≤ g := by
          simp only [List.length_cons] at h2
          omega
        cases hm : m c rest with
        | some n =>
          have hd : (rest.drop n).length ≤ rest.length := by
            rw [List.length_drop]
            omega
          rw [subF, subF, hm]
          show repl ++ subF m repl f (rest.drop n)
              = repl ++ subF m repl g (rest.drop n)
          rw [ih g (rest.drop n) (le_trans hd hr1) (le_trans hd hr2)]
        | none =>
          rw [subF, subF, hm]
          show c :: subF m repl f rest = c :: subF m repl g rest
          rw [ih g rest hr1 hr2]

theorem mem_subF (m : Matcher) (repl : List Char) :
    ∀ fuel l a, a ∈ subF m repl fuel l → a ∈ l ∨ a ∈ repl := by
  intro fuel
  induction fuel with
  | zero =>
    intro l a ha
    cases l with
    | nil => cases ha
    | cons c rest => exact Or.inl ha
  | succ f ih =>
    intro l a ha
    cases l with
    | nil => cases ha
    | cons c rest =>
      cases hm : m c rest with
      | some n =>
        rw [subF, hm] at ha
        replace ha : a ∈ repl ++ subF m repl f (rest.drop n) := ha
        cases List.mem_append.1 ha with
        | inl h => exact Or.inr h
        | inr h =>
          cases ih (rest.drop n) a h with
          | inl h2 =>
            exact Or.inl (List.mem_cons_of_mem c (List.mem_of_mem_drop h2))
          | inr h2 => exact Or.inr h2
      | none =>
        rw [subF, hm] at ha
        replace ha : a ∈ c :: subF m repl f rest := ha
        cases ha with
        | head => exact Or.inl (List.mem_cons_self a rest)
        | tail _ h2 =>
          cases ih rest a h2 with
          | inl h3 => exact Or.inl (List.mem_cons_of_mem c h3)
          | inr h3 => exact Or.inr h3

theorem subF_skip (m : Matcher) (repl : List Char)
    (hP1 : ∀ c rest, m c rest ≠ none → c = '<') :
    ∀ (xs l : List Char) fuel, (∀ a ∈ xs, a ≠ '<') →
      (xs ++ l).length ≤ fuel →
      subF m repl fuel (xs ++ l) = xs ++ subF m repl l.length l := by
  intro xs
  induction xs with
  | nil =>
    intro l fuel _ hf
    rw [List.nil_append, List.nil_append]
    exact subF_irrel m repl fuel l.length l (by simpa using hf) (le_refl _)
  | cons x xs ih =>
    intro l fuel hx hf
    rw [List.cons_append] at hf ⊢
    cases fuel with
    | zero => exact absurd hf (by simp)
    | succ f =>
      have hmx : m x (xs ++ l) = none := by
        cases hm : m x (xs ++ l) with
        | none => rfl
        | some n =>
          exact absurd
            (hP1 x (xs ++ l) (by rw [hm]; exact fun h => Option.noConfusion h))
            (hx x (List.mem_cons_self x xs))
      rw [subF, hmx]
      show x :: subF m repl f (xs ++ l)
          = x :: (xs ++ subF m repl l.length l)
      rw [ih l f (fun a ha => hx a (List.mem_cons_of_mem x ha))
        (by simp only [List.length_cons] at hf; omega)]

theorem findGt_append : ∀ (xs l : List Char), (∀ a ∈ xs, a ≠ '>') →
    findGt (xs ++ '>' :: l) = some xs.length := by
  intro xs
  induction xs with
  | nil =>
    intro l _
    rw [List.nil_append, findGt, if_pos rfl]
    rfl
  | cons x xs ih =>
    intro l hx
    rw [List.cons_append, findGt,
      if_neg (hx x (List.mem_cons_self x xs)),
      ih l (fun a ha => hx a (List.mem_cons_of_mem x ha))]
    rfl

theorem drop_tag : ∀ (m0 : List Char) (y : Char) (l : List Char),
    (m0 ++ y :: l).drop (m0.length + 1) = l := by
  intro m0
  induction m0 with
  | nil => intro y l; rfl
  | cons a m0 ih =>
    intro y l
    rw [List.cons_append]
    exact ih y l

theorem balanced_append_nobrk : ∀ {xs l : List Char}, NoBrk xs → Balanced l →
    Balanced (xs ++ l) := by
  intro xs
  induction xs with
  | nil => intro l _ hb; exact hb
  | cons a xs ih =>
    intro l h hb
    rw [List.cons_append]
    exact Balanced.plain a (xs ++ l)
      (h a (List.mem_cons_self a xs)).1 (h a (List.mem_cons_self a xs)).2
      (ih (fun b hb2 => h b (List.mem_cons_of_mem a hb2)) hb)

theorem prefix_through_tag : ∀ (lit mc l : List Char),
    (∀ a ∈ lit, a ≠ '>') → (∀ a ∈ mc, a ≠ '>') →
    lit <+: (mc ++ '>' :: l) → ∃ t, mc = lit ++ t := by
  intro lit
  induction lit with
  | nil => intro mc l _ _ _; exact ⟨mc, rfl⟩
  | cons c lit ih =>
    intro mc l hlit hmc hp
    obtain ⟨t2, ht2⟩ := hp
    cases mc with
    | nil =>
      rw [List.nil_append, List.cons_append] at ht2
      injection ht2 with h1 _
      exact absurd h1 (hlit c (List.mem_cons_self c lit))
    | cons d mc' =>
      rw [List.cons_append, List.cons_append] at ht2
      injection ht2 with h1 h2
      obtain ⟨t, ht⟩ := ih mc' l (fun a ha => hlit a (List.mem_cons_of_mem c ha))
        (fun a ha => hmc a (List.mem_cons_of_mem d ha)) ⟨t2, h2⟩
      exact ⟨t, by rw [ht, ← h1]; rfl⟩

theorem close_prefix_eq : ∀ (lit0 mc l : List Char),
    (∀ a ∈ lit0, a ≠ '>') → (∀ a ∈ mc, a ≠ '>') →
    (lit0 ++ ['>']) <+: (mc ++ '>' :: l) → mc = lit0 := by
  intro lit0
  induction lit0 with
  | nil =>
    intro mc l _ hmc hp
    obtain ⟨t2, ht2⟩ := hp
    cases mc with
    | nil => rfl
    | cons d mc' =>
      rw [List.nil_append, List.cons_append, List.cons_append] at ht2
      injection ht2 with h1 _
      exact absurd h1.symm (hmc d (List.mem_cons_self d mc'))
  | cons c lit0 ih =>
    intro mc l hlit hmc hp
    obtain ⟨t2, ht2⟩ := hp
    cases mc with
    | nil =>
      rw [List.nil_append, List.cons_append, List.cons_append] at ht2
      injection ht2 with h1 _
      exact absurd h1 (hlit c (List.mem_cons_self c lit0))
    | cons d mc' =>
      rw [List.cons_append, List.cons_append, List.cons_append] at ht2
      injection ht2 with h1 h2
      rw [ih mc' l (fun a ha => hlit a (List.mem_cons_of_mem c ha))
        (fun a ha => hmc a (List.mem_cons_of_mem d ha)) ⟨t2, h2⟩, h1]

theorem mOpenLit_onlyLt (lit : List Char) :
    ∀ c rest, mOpenLit lit c rest ≠ none → c = '<' := by
  intro c rest h
  by_cases hc : c = '<'
  · exact hc
  · exact absurd (by rw [mOpenLit, if_neg (fun hand => hc hand.1)]) h

theorem mCloseLit_onlyLt (lit : List Char) :
    ∀ c rest, mCloseLit lit c rest ≠ none → c = '<' := by
  intro c rest h
  by_cases hc : c = '<'
  · exact hc
  · exact absurd (by rw [mCloseLit, if_neg (fun hand => hc hand.1)]) h

theorem mHOpen_onlyLt : ∀ c rest, mHOpen c rest ≠ none → c = '<' := by
  intro c rest h
  by_cases hc : c = '<'
  · exact hc
  · exact absurd (by rw [mHOpen.eq_def, if_neg hc]) h

theorem mHClose_onlyLt : ∀ c rest, mHClose c rest ≠ none → c = '<' := by
  intro c rest h
  by_cases hc : c = '<'
  · exact hc
  · exact absurd (by rw [mHClose.eq_def, if_neg hc]) h

theorem mTag_onlyLt : ∀ c rest, mTag c rest ≠ none → c = '<' := by
  intro c rest h
  by_cases hc : c = '<'
  · exact hc
  · exact absurd (by rw [mTag.eq_def, if_neg hc]) h

theorem mOpenLit_exact (lit : List Char) (hlitGt : ∀ a ∈ lit, a ≠ '>') :
    ∀ (mc l : List Char) (n : Nat), mc ≠ [] →
      (∀ a ∈ mc, a ≠ '<' ∧ a ≠ '>') →
      mOpenLit lit '<' (mc ++ '>' :: l) = some n → n = mc.length + 1 := by
  intro mc l n _ hmc hm
  rw [mOpenLit] at hm
  by_cases hp : lit.isPrefixOf (mc ++ '>' :: l) = true
  · rw [if_pos ⟨rfl, hp⟩] at hm
    obtain ⟨t, ht⟩ := prefix_through_tag lit mc l hlitGt
      (fun a ha => (hmc a ha).2) (List.isPrefixOf_iff_prefix.1 hp)
    have hdrop : (mc ++ '>' :: l).drop lit.length = t ++ '>' :: l := by
      rw [ht, List.append_assoc, List.drop_left]
    rw [hdrop, findGt_append t l
      (fun a ha => (hmc a (by rw [ht]; exact List.mem_append_right lit ha)).2)]
      at hm
    injection hm with hm2
    rw [← hm2, ht, List.length_append]
  · rw [if_neg (fun hand => hp hand.2)] at hm
    cases hm

theorem mCloseLit_exact (lit0 : List Char) (hlitGt : ∀ a ∈ lit0, a ≠ '>') :
    ∀ (mc l : List Char) (n : Nat), mc ≠ [] →
      (∀ a ∈ mc, a ≠ '<' ∧ a ≠ '>') →
      mCloseLit (lit0 ++ ['>']) '<' (mc ++ '>' :: l) = some n →
      n = mc.length + 1 := by
  intro mc l n _ hmc hm
  rw [mCloseLit] at hm
  by_cases hp : (lit0 ++ ['>']).isPrefixOf (mc ++ '>' :: l) = true
  · rw [if_pos ⟨rfl, hp⟩] at hm
    injection hm with hm2
    have heq := close_prefix_eq lit0 mc l hlitGt
      (fun a ha => (hmc a ha).2) (List.isPrefixOf_iff_prefix.1 hp)
    rw [← hm2, List.length_append, heq]
    rfl
  · rw [if_neg (fun hand => hp hand.2)] at hm
    cases hm

theorem mHOpen_exact : ∀ (mc l : List Char) (n : Nat), mc ≠ [] →
    (∀ a ∈ mc, a ≠ '<' ∧ a ≠ '>') →
    mHOpen '<' (mc ++ '>' :: l) = some n → n = mc.length + 1 := by
  intro mc l n hne hmc hm
  rw [mHOpen.eq_def, if_pos rfl] at hm
  cases mc with
  | nil => exact absurd rfl hne
  | cons a mc' =>
    rw [List.cons_append] at hm
    cases mc' with
    | nil =>
      replace hm : (if a = 'h' ∧ '1' ≤ '>' ∧ '>' ≤ '6'
          then (findGt l).map (fun i => 2 + i + 1) else none) = some n := hm
      rw [if_neg (fun h => absurd h.2.2 (by decide))] at hm
      cases hm
    | cons d mc'' =>
      replace hm : (if a = 'h' ∧ '1' ≤ d ∧ d ≤ '6'
          then (findGt (mc'' ++ '>' :: l)).map (fun i => 2 + i + 1)
          else none) = some n := hm
      by_cases hcond : a = 'h' ∧ '1' ≤ d ∧ d ≤ '6'
      · rw [if_pos hcond, findGt_append mc'' l
          (fun b hb => (hmc b (List.mem_cons_of_mem a
            (List.mem_cons_of_mem d hb))).2)] at hm
        injection hm with hm2
        rw [← hm2]
        simp only [List.length_cons]
        omega
      · rw [if_neg hcond] at hm
        cases hm

theorem mHClose_exact : ∀ (mc l : List Char) (n : Nat), mc ≠ [] →
    (∀ a ∈ mc, a ≠ '<' ∧ a ≠ '>') →
    mHClose '<' (mc ++ '>' :: l) = some n → n = mc.length + 1 := by
  intro mc l n hne hmc hm
  rw [mHClose.eq_def, if_pos rfl] at hm
  cases mc with
  | nil => exact absurd rfl hne
  | cons a mc1 =>
    rw [List.cons_append] at hm
    cases mc1 with
    | nil =>
      cases l with
      | nil => exact Option.noConfusion hm
      | cons c1 l1 =>
        cases l1 with
        | nil => exact Option.noConfusion hm
        | cons c2 l2 =>
          replace hm : (if a = '/' ∧ '>' = 'h' ∧ '1' ≤ c1 ∧ c1 ≤ '6' ∧ c2 = '>'
              then some 4 else none) = some n := hm
          rw [if_neg (fun h => absurd h.2.1 (by decide))] at hm
          cases hm
    | cons b mc2 =>
      cases mc2 with
      | nil =>
        cases l with
        | nil => exact Option.noConfusion hm
        | cons c1 l1 =>
          replace hm : (if a = '/' ∧ b = 'h' ∧ '1' ≤ '>' ∧ '>' ≤ '6' ∧ c1 = '>'
              then some 4 else none) = some n := hm
          rw [if_neg (fun h => absurd h.2.2.2.1 (by decide))] at hm
          cases hm
      | cons d mc3 =>
        cases mc3 with
        | nil =>
          replace hm : (if a = '/' ∧ b = 'h' ∧ '1' ≤ d ∧ d ≤ '6' ∧ '>' = '>'
              then some 4 else none) = some n := hm
          by_cases hcond : a = '/' ∧ b = 'h' ∧ '1' ≤ d ∧ d ≤ '6' ∧ ('>' : Char) = '>'
          · rw [if_pos hcond] at hm
            injection hm with hm2
            rw [← hm2]
            rfl
          · rw [if_neg hcond] at hm
            cases hm
        | cons e mc4 =>
          replace hm : (if a = '/' ∧ b = 'h' ∧ '1' ≤ d ∧ d ≤ '6' ∧ e = '>'
              then some 4 else none) = some n := hm
          rw [if_neg (fun h => absurd h.2.2.2.2
            ((hmc e (by
              exact List.mem_cons_of_mem a (List.mem_cons_of_mem b
                (List.mem_cons_of_mem d (List.mem_cons_self e mc4))))).2))] at hm
          cases hm

theorem mTag_tag : ∀ (mc l : List Char), mc ≠ [] →
    (∀ a ∈ mc, a ≠ '<' ∧ a ≠ '>') →
    mTag '<' (mc ++ '>' :: l) = some (mc.length + 1) := by
  intro mc l hne hmc
  rw [mTag.eq_def, if_pos rfl]
  cases mc with
  | nil => exact absurd rfl hne
  | cons x mc' =>
    rw [List.cons_append]
    show (if x = '>' then none
        else (findGt (mc' ++ '>' :: l)).map (fun i => i + 2))
      = some ((x :: mc').length + 1)
    rw [if_neg (hmc x (List.mem_cons_self x mc')).2,
      findGt_append mc' l (fun a ha => (hmc a (List.mem_cons_of_mem x ha)).2)]
    rfl

theorem balanced_subF (m : Matcher) (repl : List Char)
    (hP1 : ∀ c rest, m c rest ≠ none → c = '<')
    (hP2 : ∀ mc l2 n, mc ≠ [] → (∀ a ∈ mc, a ≠ '<' ∧ a ≠ '>') →
      m '<' (mc ++ '>' :: l2) = some n → n = mc.length + 1)
    (hrepl : NoBrk repl) :
    ∀ {l : List Char}, Balanced l → ∀ fuel, l.length ≤ fuel →
      Balanced (subF m repl fuel l) := by
  intro l hb
  induction hb with
  | nil =>
    intro fuel _
    cases fuel <;> exact Balanced.nil
  | plain c l hc1 hc2 hbl ih =>
    intro fuel hf
    cases fuel with
    | zero => exact absurd hf (by simp)
    | succ f =>
      have hm : m c l = none := by
        cases hmm : m c l with
        | none => rfl
        | some n =>
          exact absurd
            (hP1 c l (by rw [hmm]; exact fun h => Option.noConfusion h)) hc1
      rw [subF, hm]
      show Balanced (c :: subF m repl f l)
      exact Balanced.plain c _ hc1 hc2
        (ih f (by simp only [List.length_cons] at hf; omega))
  | tag m0 l hne hm0 hbl ih =>
    intro fuel hf
    cases fuel with
    | zero => exact absurd hf (by simp)
    | succ f =>
      have hf2 : l.length ≤ f := by
        simp only [List.length_cons, List.length_append] at hf
        omega
      rw [List.cons_append]
      cases hm : m '<' (m0 ++ '>' :: l) with
      | some n =>
        have hn := hP2 m0 l n hne hm0 hm
        rw [subF, hm]
        show Balanced (repl ++ subF m repl f ((m0 ++ '>' :: l).drop n))
        rw [hn, drop_tag m0 '>' l]
        exact balanced_append_nobrk hrepl (ih f hf2)
      | none =>
        rw [subF, hm]
        show Balanced ('<' :: subF m repl f (m0 ++ '>' :: l))
        rw [subF_skip m repl hP1 m0 ('>' :: l) f (fun a ha => (hm0 a ha).1)
          (by simp only [List.length_cons, List.length_append] at hf ⊢; omega)]
        have hmgt : m '>' l = none := by
          cases hmm : m '>' l with
          | none => rfl
          | some k =>
            exact absurd
              (hP1 '>' l (by rw [hmm]; exact fun h => Option.noConfusion h))
              (by decide)
        have hgt : subF m repl ('>' :: l).length ('>' :: l)
            = '>' :: subF m repl l.length l := by
          rw [List.length_cons, subF, hmgt]
        rw [hgt]
        exact Balanced.tag m0 _ hne hm0 (ih l.length (le_refl _))

theorem nobrk_subF_mTag :
    ∀ {l : List Char}, Balanced l → ∀ fuel, l.length ≤ fuel →
      NoBrk (subF mTag [] fuel l) := by
  intro l hb
  induction hb with
  | nil =>
    intro fuel _
    cases fuel <;> exact fun a ha => absurd ha (List.not_mem_nil a)
  | plain c l hc1 hc2 hbl ih =>
    intro fuel hf
    cases fuel with
    | zero => exact absurd hf (by simp)
    | succ f =>
      have hm : mTag c l = none := by
        rw [mTag.eq_def, if_neg hc1]
      rw [subF, hm]
      intro a ha
      replace ha : a ∈ c :: subF mTag [] f l := ha
      cases ha with
      | head => exact ⟨hc1, hc2⟩
      | tail _ h2 =>
        exact ih f (by simp only [List.length_cons] at hf; omega) a h2
  | tag m0 l hne hm0 hbl ih =>
    intro fuel hf
    cases fuel with
    | zero => exact absurd hf (by simp)
    | succ f =>
      rw [List.cons_append, subF, mTag_tag m0 l hne hm0]
      show NoBrk ([] ++ subF mTag [] f ((m0 ++ '>' :: l).drop (m0.length + 1)))
      rw [List.nil_append, drop_tag m0 '>' l]
      exact ih f
        (by simp only [List.length_cons, List.length_append] at hf; omega)

theorem nobrk_subAll (m : Matcher) (repl : List Char) (hrepl : NoBrk repl)
    {l : List Char} (h : NoBrk l) : NoBrk (subAll m repl l) := by
  intro a ha
  cases mem_subF m repl l.length l a ha with
  | inl h2 => exact h a h2
  | inr h2 => exact hrepl a h2

theorem nobrk_pyStrip {l : List Char} (h : NoBrk l) : NoBrk (pyStrip l) :=
  fun a ha => h a (mem_pyStrip ha)

/-- C7 counterexample: the claim's universal no-angle-brackets property
fails — an angle bracket that is not part of a complete tag survives every
pass; `"a < b"` is returned unchanged, `'<'` included. -/
theorem claim_c7_counterexample :
    html_to_plain_text "a < b" = "a < b"
    ∧ containsSub ['<'] (html_to_plain_text "a < b").data = true :=
  ⟨rfl, rfl⟩

/-- C7 (amended): for every input whose angle brackets all occur inside
complete tags (`Balanced`), the output of `html_to_plain_text` contains no
angle-bracket characters; and reducing `"<h1>A</h1><p>B</p>"` yields
exactly `"A\n\nB"` — "A" then "B" separated by one blank line, with zero
`'<'` or `'>'` remaining. -/
theorem claim_c7_no_brackets (l : List Char) (hb : Balanced l) :
    (∀ a ∈ html_to_plain_text_chars l, a ≠ '<' ∧ a ≠ '>')
    ∧ html_to_plain_text "<h1>A</h1><p>B</p>" = "A\n\nB" := by
  refine ⟨?_, rfl⟩
  have hb1 : Balanced (subAll (mOpenLit ['b', 'r']) ['\n'] l) :=
    balanced_subF _ _ (mOpenLit_onlyLt _) (mOpenLit_exact _ (by decide))
      (by decide) hb _ (le_refl _)
  have hb2 : Balanced (subAll (mOpenLit ['p']) ['\n'] _) :=
    balanced_subF _ _ (mOpenLit_onlyLt _) (mOpenLit_exact _ (by decide))
      (by decide) hb1 _ (le_refl _)
  have hb3 : Balanced (subAll (mCloseLit ['/', 'p', '>']) ['\n'] _) :=
    balanced_subF _ _ (mCloseLit_onlyLt _) (mCloseLit_exact ['/', 'p'] (by decide))
      (by decide) hb2 _ (le_refl _)
  have hb4 : Balanced (subAll mHOpen ['\n'] _) :=
    balanced_subF _ _ mHOpen_onlyLt mHOpen_exact (by decide) hb3 _ (le_refl _)
  have hb5 : Balanced (subAll mHClose ['\n'] _) :=
    balanced_subF _ _ mHClose_onlyLt mHClose_exact (by decide) hb4 _ (le_refl _)
  have hb6 : Balanced (subAll (mOpenLit ['l', 'i']) ['\n', '•', ' '] _) :=
    balanced_subF _ _ (mOpenLit_onlyLt _) (mOpenLit_exact _ (by decide))
      (by decide) hb5 _ (le_refl _)
  have hn7 : NoBrk (subAll mTag [] _) := nobrk_subF_mTag hb6 _ (le_refl _)
  have hn8 : NoBrk (subAll mCollapse ['\n', '\n'] _) :=
    nobrk_subAll _ _ (by decide) hn7
  exact nobrk_pyStrip hn8

/-- Witness for C7 (amended) at the balanced markup `"<p>Hi</p>"`: neither
bracket character occurs in the reduced output. -/
theorem claim_c7_no_brackets_witness :
    (html_to_plain_text_chars ("<p>Hi</p>").data).elem '<' = false
    ∧ (html_to_plain_text_chars ("<p>Hi</p>").data).elem '>' = false := by
  have h := (claim_c7_no_brackets ("<p>Hi</p>").data
    (Balanced.tag ['p'] _ (by decide) (by decide)
      (Balanced.plain 'H' _ (by decide) (by decide)
        (Balanced.plain 'i' _ (by decide) (by decide)
          (Balanced.tag ['/', 'p'] [] (by decide) (by decide)
            Balanced.nil))))).1
  constructor
  · cases hc : (html_to_plain_text_chars ("<p>Hi</p>").data).elem '<' with
    | false => rfl
    | true => exact absurd rfl (h '<' (List.elem_iff.1 hc)).1
  · cases hc : (html_to_plain_text_chars ("<p>Hi</p>").data).elem '>' with
    | false => rfl
    | true => exact absurd rfl (h '>' (List.elem_iff.1 hc)).2

/-! ## `email_builder.py`: `wrap_html_for_email` and `create_draft_email`
(Message Assembler)

MIME parts are modelled structurally; headers added with `add_header` are
kept as ordered name/value pairs. `hash(recipient)`, `datetime.now()` and
`email.utils.formatdate` are external and passed in as strings. -/

/-- A MIME entity: a text part, a generic base part with explicit headers,
or a multipart container. -/
inductive MimeEntity where
  | text (subtype : String) (payload : String)
  | base (maintype subtype : String) (payload : String)
      (headers : List (String × String))
  | multipart (subtype : String) (headers : List (String × String))
      (parts : List MimeEntity)

/-- Model of `wrap_html_for_email` (email_builder.py lines 14-49): the
fixed document shell with embedded styling around the content. -/
def wrap_html_for_email (html_content : String) : String :=
  "<!DOCTYPE html>\n<html lang=\"en\">\n<head>\n    <meta charset=\"UTF-8\">\n    <meta name=\"viewport\" content=\"width=device-width, initial-scale=1.0\">\n    <meta http-equiv=\"X-UA-Compatible\" content=\"IE=edge\">\n    <title>Email</title>\n    <style>\n        body \x7b margin: 0; padding: 20px; font-family: Arial, sans-serif; line-height: 1.6; color: #333; \x7d\n        h1, h2, h3, h4, h5, h6 \x7b color: #333; margin-bottom: 10px; \x7d\n        p \x7b margin-bottom: 15px; \x7d\n        strong, b \x7b font-weight: bold; \x7d\n        em, i \x7b font-style: italic; \x7d\n        ul, ol \x7b margin-bottom: 15px; padding-left: 20px; \x7d\n        li \x7b margin-bottom: 5px; \x7d\n        table \x7b border-collapse: collapse; width: 100%; margin-bottom: 15px; \x7d\n        td, th \x7b padding: 8px; border: 1px solid #ddd; text-align: left; \x7d\n        th \x7b background-color: #f2f2f2; font-weight: bold; \x7d\n        img \x7b max-width: 100%; height: auto; \x7d\n        a \x7b color: #007cba; \x7d\n    </style>\n</head>\n<body>\n    "
    ++ html_content ++ "\n</body>\n</html>"

/-- The `invite.ics` attachment part (email_builder.py lines 117-123). -/
def icsAttachment (ics_content : String) : MimeEntity :=
  .base "text" "calendar" ics_content
    [("Content-Transfer-Encoding", "7bit"),
     ("Content-Disposition", "attachment; filename=\"invite.ics\""),
     ("Content-Type",
       "text/calendar; charset=utf-8; method=REQUEST; name=\"invite.ics\"")]

/-- The inline calendar part (email_builder.py lines 126-130). -/
def icsInlinePart (ics_content : String) : MimeEntity :=
  .base "text" "calendar" ics_content
    [("Content-Transfer-Encoding", "7bit"),
     ("Content-Disposition", "inline"),
     ("Content-Type", "text/calendar; charset=utf-8; method=REQUEST")]

/-- Model of `create_draft_email` (email_builder.py lines 74-135):
`config['from_email']` raises a `KeyError` when absent; otherwise the outer
mixed container holds the alternative container (plain text first, wrapped
HTML second) followed by the two calendar parts. -/
def create_draft_email (config : List (String × String))
    (recipient subject html_content ics_content : String)
    (nowStamp recipientHash dateHdr : String) : Except String MimeEntity :=
  match dget config "from_email" with
  | none => .error "KeyError: from_email"
  | some fromEmail =>
    .ok (.multipart "mixed"
      [("From", fromEmail), ("To", recipient), ("Subject", subject),
       ("Message-ID", "<" ++ nowStamp ++ "." ++ recipientHash ++ "@fastmail>"),
       ("Date", dateHdr), ("User-Agent", "bulkdraft/1.0"),
       ("MIME-Version", "1.0"), ("X-Mailer", "bulkdraft Python Script")]
      [.multipart "alternative" []
        [.text "plain" (html_to_plain_text html_content),
         .text "html" (wrap_html_for_email html_content)],
       icsAttachment ics_content,
       icsInlinePart ics_content])

/-- Subparts of a multipart entity. -/
def mimeParts : MimeEntity → List MimeEntity
  | .multipart _ _ ps => ps
  | _ => []

/-- Content subtype of an entity. -/
def mimeSubtype : MimeEntity → String
  | .text st _ => st
  | .base _ st _ _ => st
  | .multipart st _ _ => st

/-- Is this a `text/calendar` part? -/
def isCalendarPart : MimeEntity → Bool
  | .base "text" "calendar" _ _ => true
  | _ => false

/-- The value of a named header on a base part. -/
def partHeader (h : String) : MimeEntity → Option String
  | .base _ _ _ hs => dget hs h
  | _ => none

/-- The payload of a leaf part. -/
def mimePayload : MimeEntity → Option String
  | .text _ p => some p
  | .base _ _ p _ => some p
  | _ => none

/-- C8: for all inputs with a configured sender, `create_draft_email`
returns an outer mixed container whose parts are exactly one alternative
container (plain text from the Reducer first, wrapped HTML second) followed
by exactly two `text/calendar` parts, both carrying the identical serialized
calendar payload with 7-bit transfer encoding: first a named `invite.ics`
attachment whose content type carries `method=REQUEST`, then an inline part
with no filename. -/
theorem claim_c8_draft_structure (config : List (String × String))
    (recipient subject html ics nowStamp rhash dateHdr fromEmail : String)
    (hfrom : dget config "from_email" = some fromEmail) :
    ∃ m, create_draft_email config recipient subject html ics
        nowStamp rhash dateHdr = .ok m
    ∧ mimeSubtype m = "mixed"
    ∧ mimeParts m
        = [.multipart "alternative" []
            [.text "plain" (html_to_plain_text html),
             .text "html" (wrap_html_for_email html)],
           icsAttachment ics, icsInlinePart ics]
    ∧ (mimeParts m).filter isCalendarPart = [icsAttachment ics, icsInlinePart ics]
    ∧ mimePayload (icsAttachment ics) = some ics
    ∧ mimePayload (icsInlinePart ics) = some ics
    ∧ partHeader "Content-Transfer-Encoding" (icsAttachment ics) = some "7bit"
    ∧ partHeader "Content-Transfer-Encoding" (icsInlinePart ics) = some "7bit"
    ∧ partHeader "Content-Disposition" (icsAttachment ics)
        = some "attachment; filename=\"invite.ics\""
    ∧ containsSub ("method=REQUEST").data
        ((partHeader "Content-Type" (icsAttachment ics)).getD "").data = true
    ∧ partHeader "Content-Disposition" (icsInlinePart ics) = some "inline"
    ∧ containsSub ("filename").data
        ((partHeader "Content-Disposition" (icsInlinePart ics)).getD "").data
      = false
    ∧ containsSub ("name=").data
        ((partHeader "Content-Type" (icsInlinePart ics)).getD "").data
      = false := by
  refine ⟨MimeEntity.multipart "mixed"
      [("From", fromEmail), ("To", recipient), ("Subject", subject),
       ("Message-ID", "<" ++ nowStamp ++ "." ++ rhash ++ "@fastmail>"),
       ("Date", dateHdr), ("User-Agent", "bulkdraft/1.0"),
       ("MIME-Version", "1.0"), ("X-Mailer", "bulkdraft Python Script")]
      [.multipart "alternative" []
        [.text "plain" (html_to_plain_text html),
         .text "html" (wrap_html_for_email html)],
       icsAttachment ics, icsInlinePart ics],
    ?_, rfl, rfl, rfl, rfl, rfl, rfl, rfl, rfl, rfl, rfl, rfl, rfl⟩
  rw [create_draft_email, hfrom]

/-- Witness for C8 at a concrete configuration. -/
theorem claim_c8_draft_structure_witness :
    dget [("from_email", "me@x.com")] "from_email" = some "me@x.com"
    ∧ ∃ m, create_draft_email [("from_email", "me@x.com")] "r@x.com" "S"
        "<p>B</p>" "ICS" "t" "h" "d" = .ok m ∧ mimeSubtype m = "mixed" := by
  refine ⟨by decide, ?_⟩
  obtain ⟨m, h1, h2, _⟩ := claim_c8_draft_structure [("from_email", "me@x.com")]
    "r@x.com" "S" "<p>B</p>" "ICS" "t" "h" "d" "me@x.com" (by decide)
  exact ⟨m, h1, h2⟩

/-! ## `cli.py`: the per-record loop of `process_template_mode`

The markdown-to-HTML converter is external and passed in as `mdToHtml`;
the `hash`/`now` values feeding the message id are passed in as strings;
the IMAP append is external — a `drafted` result stands for the
`create_draft_email` + `save_draft_to_imap` pair for that recipient. -/

/-- Plain rendering of a metadata value when interpolated into a header. -/
def valToStr : Val → String
  | .vstr s => s
  | .vint n => toString n
  | .vbool b => toString b
  | .vnone => "None"

/-- Minimal serialization of the calendar event (the external `ics`
library's `serialize`): a single VEVENT inside a VCALENDAR. -/
def serializeIcs (ev : IcsEvent) : String :=
  "BEGIN:VCALENDAR\nBEGIN:VEVENT\nSUMMARY:" ++ valToStr ev.eventName
    ++ "\nDTSTART;TZID=" ++ ev.tzUsed ++ ":" ++ toString ev.beginsAt.year
    ++ "-" ++ toString ev.beginsAt.month ++ "-" ++ toString ev.beginsAt.day
    ++ " " ++ toString ev.beginsAt.hour ++ ":" ++ toString ev.beginsAt.minute
    ++ ":" ++ toString ev.beginsAt.second
    ++ "\nLOCATION:" ++ valToStr ev.location
    ++ "\nEND:VEVENT\nEND:VCALENDAR"

/-- Outcome of one loop iteration of `process_template_mode` (cli.py lines
75-109). -/
inductive StepResult where
  | skipped (msg : String)
  | failed (err : String)
  | drafted (recipient : String) (draft : MimeEntity)

/-- The draft-producing body of the loop (cli.py lines 81-106): resolve the
metadata, render the body with the resolved metadata and the record, convert
to HTML, build the calendar payload, pick recipient and subject, assemble
the draft. An uncaught rendering or calendar error aborts the iteration
(and, in the Python code, the whole batch). -/
def process_body (config : List (String × String))
    (mdToHtml : String → String) (known : String → Bool) (now : NaiveDT)
    (nowStamp recipientHash dateHdr : String)
    (metadata : List (String × Val)) (template_content : String)
    (record : Record) : StepResult :=
  match render_template template_content
      (render_metadata_templates metadata record).1 record with
  | .error e => .failed e
  | .ok rendered_content =>
    match create_ics_file known now (render_metadata_templates metadata record).1 with
    | .error e => .failed e
    | .ok (ev, _) =>
      match create_draft_email config
          (pyGetD record "email" (pyGetD config "default_email" "test@example.com"))
          (valToStr (pyGetD (render_metadata_templates metadata record).1 "subject"
            (pyGetD (render_metadata_templates metadata record).1 "event_name"
              (.vstr "Event Invitation"))))
          (mdToHtml rendered_content) (serializeIcs ev)
          nowStamp recipientHash dateHdr with
      | .error e => .failed e
      | .ok draft =>
        .drafted (pyGetD record "email"
          (pyGetD config "default_email" "test@example.com")) draft

/-- The skip notice printed for an excluded record (cli.py line 78). -/
def skipNotice (record : Record) : String :=
  "Skipping " ++ pyGetD record "first_name" (pyGetD record "email" "unknown")
    ++ ": include = " ++ pyGetD record "include" ""

/-- One loop iteration (cli.py lines 75-109): the include-guard first —
`if 'include' in record and record['include'].upper() != 'TRUE': continue` —
then the draft-producing body. -/
def process_record (config : List (String × String))
    (mdToHtml : String → String) (known : String → Bool) (now : NaiveDT)
    (nowStamp recipientHash dateHdr : String)
    (metadata : List (String × Val)) (template_content : String)
    (record : Record) : StepResult :=
  match dget record "include" with
  | some inc =>
    if pyUpper inc ≠ "TRUE" then .skipped (skipNotice record)
    else process_body config mdToHtml known now nowStamp recipientHash dateHdr
      metadata template_content record
  | none => process_body config mdToHtml known now nowStamp recipientHash dateHdr
      metadata template_content record

/-- The whole per-recipient loop over the deduplicated records. -/
def processRecords (config : List (String × String))
    (mdToHtml : String → String) (known : String → Bool) (now : NaiveDT)
    (nowStamp recipientHash dateHdr : String)
    (metadata : List (String × Val)) (template_content : String)
    (records : List Record) : List StepResult :=
  records.map (process_record config mdToHtml known now nowStamp recipientHash
    dateHdr metadata template_content)

/-- C10: a record with an `include` field whose uppercased value is not
`'TRUE'` is skipped entirely — the iteration result is the skip notice,
produced before any metadata resolution, body rendering or draft assembly
(the `skipped` constructor carries no draft and `process_body` is never
entered) — and processing continues with the surrounding records: mapping
over `pre ++ r :: post` processes `pre` and `post` exactly as without
`r`. -/
theorem claim_c10_include_skip (config : List (String × String))
    (mdToHtml : String → String) (known : String → Bool) (now : NaiveDT)
    (nowStamp recipientHash dateHdr : String)
    (metadata : List (String × Val)) (template_content : String)
    (r : Record) (inc : String)
    (hinc : dget r "include" = some inc)
    (hne : pyUpper inc ≠ "TRUE") :
    process_record config mdToHtml known now nowStamp recipientHash dateHdr
        metadata template_content r = .skipped (skipNotice r)
    ∧ ∀ (pre post : List Record),
        processRecords config mdToHtml known now nowStamp recipientHash dateHdr
            metadata template_content (pre ++ r :: post)
          = processRecords config mdToHtml known now nowStamp recipientHash
              dateHdr metadata template_content pre
            ++ .skipped (skipNotice r)
              :: processRecords config mdToHtml known now nowStamp recipientHash
                  dateHdr metadata template_content post := by
  have h1 : process_record config mdToHtml known now nowStamp recipientHash
      dateHdr metadata template_content r = .skipped (skipNotice r) := by
    rw [process_record, hinc]
    show (if pyUpper inc ≠ "TRUE" then StepResult.skipped (skipNotice r)
        else process_body config mdToHtml known now nowStamp recipientHash
          dateHdr metadata template_content r) = _
    rw [if_pos hne]
  refine ⟨h1, fun pre post => ?_⟩
  rw [processRecords, List.map_append, List.map_cons, ← h1]
  rfl

/-- Witness for C10 at a concrete excluded record between two processed
records. -/
theorem claim_c10_include_skip_witness :
    dget [("include", "FALSE"), ("email", "a@x.com")] "include" = some "FALSE"
    ∧ pyUpper "FALSE" ≠ "TRUE"
    ∧ process_record [] id pytzKnownSample ⟨2023, 12, 1, 10, 0, 0⟩ "t" "h" "d"
        [] "" [("include", "FALSE"), ("email", "a@x.com")]
      = .skipped (skipNotice [("include", "FALSE"), ("email", "a@x.com")]) :=
  ⟨by decide, by decide,
    (claim_c10_include_skip [] id pytzKnownSample ⟨2023, 12, 1, 10, 0, 0⟩
      "t" "h" "d" [] "" [("include", "FALSE"), ("email", "a@x.com")] "FALSE"
      (by decide) (by decide)).1⟩

end BulkDraft
